import Mathlib

/-!
Verification of the actions-yaml template/expression engine.

This file shallowly embeds the TypeScript sources of the repository
(`src/expressions/*`, `src/templates/*`) in Lean 4 and proves or refutes
the frozen claims about them.  Each embedded definition carries a doc
comment naming the function of the source it was translated from.

Modelling conventions:
- JavaScript numbers are modelled by `JSNumber` (NaN, the two infinities,
  and finite values carried as rationals).  All numeric literals exercised
  by the theorems below are small integers, which IEEE-754 doubles
  represent exactly.
- JavaScript strings are modelled by Lean `String`; `string.length` and
  `toUpperCase` are modelled by `String.length` and `(jsToUpper String)`
  (all concrete inputs below are ASCII, where both agree with UTF-16
  semantics).
- Exceptions are modelled with `Except`; a thrown `Error` is `.error`
  carrying the message or an error-kind discriminant.
- Mutation is modelled by explicit state passing.
-/

/-- JavaScript number: NaN, +Infinity, -Infinity, or a finite value.
A finite value is the exact rational `num / den` (den is positive by
construction and is not normalized; comparisons cross-multiply).  Every
concrete number in this development is a small integer, which IEEE-754
doubles represent exactly. -/
inductive JSNumber where
  | nan : JSNumber
  | posInf : JSNumber
  | negInf : JSNumber
  | fin : Int → Nat → JSNumber
deriving DecidableEq, Repr

/-- Model of the JavaScript `isNaN` test on a number. -/
def JSNumber.isNaN : JSNumber → Bool
  | .nan => true
  | _ => false

/-- Model of the JavaScript `n == 0` test on a number (NaN compares false,
and the infinities differ from 0). -/
def JSNumber.eqZero : JSNumber → Bool
  | .fin n _ => n == 0
  | _ => false

/-- Model of JavaScript strict equality `===` on two numbers:
NaN is not equal to anything, the infinities equal themselves,
finite values compare by value. -/
def JSNumber.strictEq : JSNumber → JSNumber → Bool
  | .posInf, .posInf => true
  | .negInf, .negInf => true
  | .fin a ad, .fin b bd => a * (bd : Int) == b * (ad : Int)
  | _, _ => false

/-- Model of JavaScript `<` on two numbers (NaN incomparable). -/
def JSNumber.lt : JSNumber → JSNumber → Bool
  | .nan, _ => false
  | _, .nan => false
  | .negInf, .negInf => false
  | .negInf, _ => true
  | _, .negInf => false
  | .posInf, _ => false
  | .fin _ _, .posInf => true
  | .fin a ad, .fin b bd => a * (bd : Int) < b * (ad : Int)

/-- Model of `Number.prototype.toString` restricted to the values this
development exercises: the special values print as `NaN` / `Infinity` /
`-Infinity`, integral values print in decimal.  Non-integral finite
values (never produced by any theorem below) are printed as
`num/den`, which is NOT host behaviour; no claim depends on them. -/
def JSNumber.toString : JSNumber → String
  | .nan => "NaN"
  | .posInf => "Infinity"
  | .negInf => "-Infinity"
  | .fin n d =>
    if n % (d : Int) == 0 then ToString.toString (n / (d : Int))
    else ToString.toString n ++ "/" ++ ToString.toString d

/-- Enum `ValueKind` from `src/expressions/nodes.ts` (source order:
Array, Boolean, Null, Number, Object, String). -/
inductive ValueKind where
  | array | boolean | null | number | object | string
deriving DecidableEq, Repr

/-- Canonicalized evaluation value (the `value`/`kind` pair of
`EvaluationResult` in `src/expressions/nodes.ts`).  Collections carry a
reference tag `ref` modelling JavaScript reference identity; arrays that
satisfy `ReadOnlyArrayCompatible` additionally carry their items. -/
inductive EvalValue where
  | null : EvalValue
  | bool : Bool → EvalValue
  | num : JSNumber → EvalValue
  | str : String → EvalValue
  | arr : Nat → List EvalValue → EvalValue
  | obj : Nat → EvalValue
deriving Repr

/-- Kind of a canonical value. -/
def EvalValue.kind : EvalValue → ValueKind
  | .null => .null
  | .bool _ => .boolean
  | .num _ => .number
  | .str _ => .string
  | .arr _ _ => .array
  | .obj _ => .object

/-- Translation of `expressionUtility.testPrimitive` from
`src/expressions/expression-utility.ts`. -/
def testPrimitive : ValueKind → Bool
  | .null | .boolean | .number | .string => true
  | _ => false

/-- Translation of the getter `EvaluationResult.isFalsy` from
`src/expressions/nodes.ts` (lines 386-405).  Note the Boolean case of the
source reads `const b = this.value as boolean; return b` — it returns the
boolean value itself. -/
def EvaluationResult.isFalsy : EvalValue → Bool
  | .null => true
  | .bool b => b
  | .num n => n.eqZero || n.isNaN
  | .str s => s == ""
  | _ => false

/-- Translation of the getter `EvaluationResult.isTruthy` from
`src/expressions/nodes.ts` (`return !this.isFalsy`). -/
def EvaluationResult.isTruthy (v : EvalValue) : Bool :=
  !(EvaluationResult.isFalsy v)

/-- Translation of `Not.evaluateCore` from
`src/expressions/operators/not.ts` (lines 24-31): the core result value
is `result.isFalsy` where `result` is the evaluated operand. -/
def Not.evaluateCore (operand : EvalValue) : EvalValue :=
  .bool (EvaluationResult.isFalsy operand)

/-- Test for the whitespace characters that JavaScript `Number(string)`
trims (ASCII subset; all inputs below are ASCII). -/
def jsIsSpace (c : Char) : Bool :=
  c = ' ' || c = '\t' || c = '\n' || c = '\r' || c = '\x0b' || c = '\x0c'

/-- Model of JavaScript `toUpperCase` (ASCII): upper-case the character
list (Lean's `String.toUpper` is not kernel-reducible, so the map is
done on the underlying list). -/
def jsToUpper (s : String) : String :=
  String.mk (s.data.map Char.toUpper)

/-- Decimal digits of a character list interpreted as a natural number. -/
def digitsVal (cs : List Char) : Nat :=
  cs.foldl (fun acc c => acc * 10 + (c.toNat - '0'.toNat)) 0

/-- Model of the host `Number(string)` conversion
(`expressionUtility.parseNumber` in
`src/expressions/expression-utility.ts` is `Number(str)`).
Modelled subset: whitespace trimming, the empty string (0), an optional
sign, `Infinity`, and decimal notation `digits[.digits][(e|E)[sign]digits]`
(also `.digits`); everything else is NaN.  (The host also accepts hex /
octal / binary prefixes, which no claim exercises.) -/
def parseNumber (s : String) : JSNumber :=
  let t := (s.data.dropWhile jsIsSpace).reverse.dropWhile jsIsSpace |>.reverse
  if t.isEmpty then .fin 0 1
  else
    let (sign, t) : Int × List Char :=
      match t with
      | '+' :: rest => (1, rest)
      | '-' :: rest => (-1, rest)
      | _ => (1, t)
    if t = "Infinity".data then (if sign = 1 then .posInf else .negInf)
    else
      let intPart := t.takeWhile Char.isDigit
      let t1 := t.dropWhile Char.isDigit
      let (fracPart, t2) : List Char × List Char :=
        match t1 with
        | '.' :: rest => (rest.takeWhile Char.isDigit, rest.dropWhile Char.isDigit)
        | _ => ([], t1)
      if intPart.isEmpty && fracPart.isEmpty then .nan
      else
        let num : Int :=
          (digitsVal intPart : Int) * (10 : Int) ^ fracPart.length + (digitsVal fracPart : Int)
        let den : Nat := 10 ^ fracPart.length
        match t2 with
        | [] => .fin (sign * num) den
        | e :: rest =>
          if e = 'e' || e = 'E' then
            let (epos, rest) : Bool × List Char :=
              match rest with
              | '+' :: r => (true, r)
              | '-' :: r => (false, r)
              | _ => (true, rest)
            if rest.isEmpty || !(rest.all Char.isDigit) then .nan
            else if epos then .fin (sign * num * (10 : Int) ^ digitsVal rest) den
            else .fin (sign * num) (den * 10 ^ digitsVal rest)
          else .nan

/-- Translation of the static `EvaluationResult.convertToNumber` from
`src/expressions/nodes.ts` (lines 769-782). -/
def EvaluationResult.convertToNumber : EvalValue → JSNumber
  | .null => .fin 0 1
  | .bool b => if b then .fin 1 1 else .fin 0 1
  | .num n => n
  | .str s => parseNumber s
  | _ => .nan

/-- Reverse enum lookup `ValueKind[kind]` used by `convertToString`. -/
def valueKindName : ValueKind → String
  | .array => "Array"
  | .boolean => "Boolean"
  | .null => "Null"
  | .number => "Number"
  | .object => "Object"
  | .string => "String"

/-- Translation of the method `EvaluationResult.convertToString` from
`src/expressions/nodes.ts` (lines 513-534).  (`Object.is(value, -0)`
cannot arise in the rational model, which has no signed zero.) -/
def EvaluationResult.convertToString : EvalValue → String
  | .null => ""
  | .bool b => if b then "true" else "false"
  | .num n => n.toString
  | .str s => s
  | v => valueKindName v.kind

/-- Translation of the static `EvaluationResult.coerceTypes` from
`src/expressions/nodes.ts` (lines 703-764), with the source's (bounded)
recursion made structural via a fuel parameter; the recursion depth of
the source is at most 2, so any fuel ≥ 3 gives the source behaviour. -/
def coerceTypesGo : Nat → EvalValue → EvalValue → EvalValue × EvalValue
  | 0, l, r => (l, r)
  | fuel + 1, l, r =>
    if l.kind = r.kind then (l, r)
    else
      match l, r with
      | .num _, .str s => (l, .num (parseNumber s))
      | .str s, .num _ => (.num (parseNumber s), r)
      | _, _ =>
        if l.kind = .boolean || l.kind = .null then
          coerceTypesGo fuel (.num (EvaluationResult.convertToNumber l)) r
        else if r.kind = .boolean || r.kind = .null then
          coerceTypesGo fuel l (.num (EvaluationResult.convertToNumber r))
        else (l, r)

/-- Entry point of `EvaluationResult.coerceTypes` (fuel 4 is more than the
source's maximum recursion depth). -/
def EvaluationResult.coerceTypes (l r : EvalValue) : EvalValue × EvalValue :=
  coerceTypesGo 4 l r

/-- Translation of the static `EvaluationResult.abstractEqual` from
`src/expressions/nodes.ts` (lines 556-607): coerce both sides, then
compare same-kind (NaN equal to nothing, strings upper-cased,
collections by reference). -/
def EvaluationResult.abstractEqual (left right : EvalValue) : Bool :=
  let (l, r) := EvaluationResult.coerceTypes left right
  if l.kind = r.kind then
    match l, r with
    | .null, .null => true
    | .num a, .num b => if a.isNaN || b.isNaN then false else a.strictEq b
    | .str a, .str b => (jsToUpper a) == (jsToUpper b)
    | .bool a, .bool b => a == b
    | .obj i, .obj j => i == j
    | .arr i _, .arr j _ => i == j
    | _, _ => false
  else false

/-- Translation of `Equal.evaluateCore` from
`src/expressions/operators/equal.ts`, stated over the two already
evaluated operand results. -/
def Equal.evaluateCore (left right : EvalValue) : EvalValue :=
  .bool (EvaluationResult.abstractEqual left right)

/-- State of the class `MemoryCounter` from `src/expressions/nodes.ts`
(lines 974-1087); the `_node` field is used only to build error
messages and is dropped. -/
structure MemoryCounter where
  currentBytes : Int
  maxBytes : Int
deriving DecidableEq, Repr

/-- Translation of the `MemoryCounter` constructor:
`maxBytes = (maxBytes ?? 0) > 0 ? maxBytes! : 2147483647`. -/
def MemoryCounter.make (maxBytes : Option Int) : MemoryCounter :=
  { currentBytes := 0
    maxBytes := if maxBytes.getD 0 > 0 then maxBytes.getD 0 else 2147483647 }

/-- Translation of the static `MemoryCounter.calculateStringBytes`:
`STRING_BASE_OVERHEAD + value.length * 2` with `STRING_BASE_OVERHEAD = 26`. -/
def MemoryCounter.calculateStringBytes (value : String) : Int :=
  26 + (value.length : Int) * 2

/-- Translation of `MemoryCounter.tryAddAmount`: adds and succeeds, or
returns `false` leaving the counter unchanged when the new total would
exceed `maxBytes`. -/
def MemoryCounter.tryAddAmount (c : MemoryCounter) (bytes : Int) : Bool × MemoryCounter :=
  let bytes := bytes + c.currentBytes
  if bytes > c.maxBytes then (false, c)
  else (true, { c with currentBytes := bytes })

/-- Translation of `MemoryCounter.addAmount`: `tryAddAmount` or throw. -/
def MemoryCounter.addAmount (c : MemoryCounter) (bytes : Int) : Except String MemoryCounter :=
  match c.tryAddAmount bytes with
  | (true, c) => .ok c
  | (false, _) => .error "The maximum allowed memory size was exceeded"

/-- Translation of `MemoryCounter.subtractAmount`: throws when `bytes`
exceeds `currentBytes`, otherwise subtracts. -/
def MemoryCounter.subtractAmount (c : MemoryCounter) (bytes : Int) : Except String MemoryCounter :=
  if bytes > c.currentBytes then .error "Bytes to subtract exceeds total bytes"
  else .ok { c with currentBytes := c.currentBytes - bytes }

/-- Translation of `MemoryCounter.addString`. -/
def MemoryCounter.addString (c : MemoryCounter) (value : String) : Except String MemoryCounter :=
  c.addAmount (MemoryCounter.calculateStringBytes value)

/-- Raw (pre-canonicalization) core-result value of `Join.evaluateCore`:
the array branch of the source returns the raw `string[]` segment list
(`value: result`), the other branches return a string. -/
inductive JoinCoreValue where
  | rawArray : List String → JoinCoreValue
  | rawString : String → JoinCoreValue
deriving DecidableEq, Repr

/-- Translation of `Join.evaluateCore` from
`src/expressions/functions/join.ts` (lines 16-81), stated over the
already evaluated first operand (`items`), the optional already
evaluated separator operand, and the fresh memory counter created by
`createMemoryCounter`.  Mirrors the source exactly: the first item is
appended, then (when the array has more than one element) the loop
`for (let i = 0; i < length; i++)` appends `separator` followed by
`array.getArrayItem(i)` for every `i` starting at 0, and the raw
segment list is returned as the core value. -/
def Join.evaluateCore (items : EvalValue) (sepParam : Option EvalValue)
    (memory : MemoryCounter) : Except String (JoinCoreValue × MemoryCounter) :=
  match items with
  | .arr _ [] => .ok (.rawArray [], memory)
  | .arr _ (e0 :: rest) => do
    -- Append the first item
    let itemString := EvaluationResult.convertToString e0
    let memory ← memory.addString itemString
    let result := [itemString]
    -- More items?
    if rest.length > 0 then
      let separator : String :=
        match sepParam with
        | some sep => if testPrimitive sep.kind then EvaluationResult.convertToString sep else ","
        | none => ","
      let elems := e0 :: rest
      let out ← (List.range elems.length).foldlM
        (fun (acc : List String × MemoryCounter) i => do
          let (result, memory) := acc
          -- Append the separator
          let memory ← memory.addString separator
          let result := result ++ [separator]
          -- Append the next item
          let nextItemString := EvaluationResult.convertToString (elems.getD i .null)
          let memory ← memory.addString nextItemString
          pure (result ++ [nextItemString], memory))
        (result, memory)
      pure (.rawArray out.1, out.2)
    else
      pure (.rawArray result, memory)
  | v =>
    if testPrimitive v.kind then .ok (.rawString (EvaluationResult.convertToString v), memory)
    else .ok (.rawString "", memory)

/-- Template token model from `src/templates/tokens.ts`: the tagged sum
over Null / Boolean / Number / String / Sequence / Mapping /
BasicExpression / InsertExpression.  The `file`/`line`/`col` provenance
fields influence no claim and are dropped.  The source type codes are
STRING=0, SEQUENCE=1, MAPPING=2, BASIC_EXPRESSION=3, INSERT_EXPRESSION=4,
BOOLEAN=5, NUMBER=6, NULL=7. -/
inductive TemplateToken where
  | null : TemplateToken
  | bool : Bool → TemplateToken
  | num : JSNumber → TemplateToken
  | str : String → TemplateToken
  | seq : List TemplateToken → TemplateToken
  | map : List (TemplateToken × TemplateToken) → TemplateToken
  | basicExpr : String → TemplateToken
  | insertExpr : TemplateToken
deriving Repr

/-- Source getter `TemplateToken.isScalar` (true for everything that is
not a sequence or mapping). -/
def TemplateToken.isScalar : TemplateToken → Bool
  | .seq _ | .map _ => false
  | _ => true

/-- Source getter `isLiteral` (true for null/boolean/number/string). -/
def TemplateToken.isLiteral : TemplateToken → Bool
  | .null | .bool _ | .num _ | .str _ => true
  | _ => false

/-- Source getter `isExpression` (true for the two expression tokens). -/
def TemplateToken.isExpression : TemplateToken → Bool
  | .basicExpr _ | .insertExpr => true
  | _ => false

mutual

/-- Nodes yielded after a given node by the static generator
`TemplateToken.traverse` of `src/templates/tokens.ts` (lines 284-314):
the generator yields the root, then walks sequences and mappings depth
first, yielding every child (mapping keys are skipped when `omitKeys`),
and descending into children that are sequences or mappings. -/
def TemplateToken.traverseChildren (omitKeys : Bool) : TemplateToken → List TemplateToken
  | .seq items => TemplateToken.traverseList omitKeys items
  | .map pairs => TemplateToken.traversePairs omitKeys pairs
  | _ => []

/-- Depth-first walk of a sequence's items (helper of `traverseChildren`). -/
def TemplateToken.traverseList (omitKeys : Bool) : List TemplateToken → List TemplateToken
  | [] => []
  | t :: rest =>
    t :: TemplateToken.traverseChildren omitKeys t ++ TemplateToken.traverseList omitKeys rest

/-- Depth-first walk of a mapping's pairs (helper of `traverseChildren`);
yields key then value per pair, omitting keys when `omitKeys`. -/
def TemplateToken.traversePairs (omitKeys : Bool) :
    List (TemplateToken × TemplateToken) → List TemplateToken
  | [] => []
  | (k, v) :: rest =>
    (if omitKeys then [] else k :: TemplateToken.traverseChildren omitKeys k) ++
      (v :: TemplateToken.traverseChildren omitKeys v) ++
      TemplateToken.traversePairs omitKeys rest

end

/-- Translation of the static generator `TemplateToken.traverse(value, omitKeys)`
from `src/templates/tokens.ts` as the list of yielded tokens in order. -/
def TemplateToken.traverse (value : TemplateToken) (omitKeys : Bool) : List TemplateToken :=
  value :: TemplateToken.traverseChildren omitKeys value

/-- Per-node cost of the `switch` inside
`TemplateMemory.calculateTokenBytes` (`src/templates/template-memory.ts`
lines 81-109): `MIN_OBJECT_SIZE = 24` for every node, plus the string
bytes for string and basic-expression nodes. -/
def tokenNodeBytes : TemplateToken → Int
  | .str s => 24 + MemoryCounter.calculateStringBytes s
  | .basicExpr e => 24 + MemoryCounter.calculateStringBytes e
  | _ => 24

/-- Translation of the static `TemplateMemory.calculateTokenBytes` from
`src/templates/template-memory.ts` (lines 73-113).  Note the source
iterates `TemplateToken.traverse(value, traverse)`: the `traverse` flag
is passed into the generator's `omitKeys` parameter, so the children are
walked in BOTH cases (with the mapping keys omitted when the flag is
true). -/
def TemplateMemory.calculateTokenBytes (value : TemplateToken) (traverse : Bool) : Int :=
  (TemplateToken.traverse value traverse).foldl (fun acc item => acc + tokenNodeBytes item) 0

/-- State of the class `TemplateMemory` from
`src/templates/template-memory.ts` (a `MemoryCounter` plus the depth
guard). -/
structure TemplateMemory where
  counter : MemoryCounter
  maxDepth : Int
  currentDepth : Int
deriving DecidableEq, Repr

/-- Translation of the `TemplateMemory` constructor. -/
def TemplateMemory.make (maxDepth maxBytes : Int) : TemplateMemory :=
  { counter := MemoryCounter.make (some maxBytes), maxDepth := maxDepth, currentDepth := 0 }

/-- Current bytes of the underlying counter. -/
def TemplateMemory.currentBytes (m : TemplateMemory) : Int :=
  m.counter.currentBytes

/-- Translation of `TemplateMemory.addAmount`. -/
def TemplateMemory.addAmount (m : TemplateMemory) (bytes : Int) : Except String TemplateMemory :=
  (m.counter.addAmount bytes).map (fun c => { m with counter := c })

/-- Translation of `TemplateMemory.subtractAmount`. -/
def TemplateMemory.subtractAmount (m : TemplateMemory) (bytes : Int) :
    Except String TemplateMemory :=
  (m.counter.subtractAmount bytes).map (fun c => { m with counter := c })

/-- Translation of `TemplateMemory.addToken(value, traverse)`. -/
def TemplateMemory.addToken (m : TemplateMemory) (value : TemplateToken) (traverse : Bool) :
    Except String TemplateMemory :=
  m.addAmount (TemplateMemory.calculateTokenBytes value traverse)

/-- Translation of `TemplateMemory.subtractToken(value, traverse)`. -/
def TemplateMemory.subtractToken (m : TemplateMemory) (value : TemplateToken) (traverse : Bool) :
    Except String TemplateMemory :=
  m.subtractAmount (TemplateMemory.calculateTokenBytes value traverse)

/-- Translation of `TemplateMemory.incrementDepth` (throws above `maxDepth`). -/
def TemplateMemory.incrementDepth (m : TemplateMemory) : Except String TemplateMemory :=
  if m.currentDepth + 1 > m.maxDepth then .error "Maximum object depth exceeded"
  else .ok { m with currentDepth := m.currentDepth + 1 }

/-- Translation of `TemplateMemory.decrementDepth` (throws at zero). -/
def TemplateMemory.decrementDepth (m : TemplateMemory) : Except String TemplateMemory :=
  if m.currentDepth = 0 then .error "Depth may not be decremented below zero"
  else .ok { m with currentDepth := m.currentDepth - 1 }

/-- Accumulator loop of `MappingToken.initializeDictionary` from
`src/templates/tokens.ts` (lines 826-845): walk the pairs in insertion
order; for every pair whose key is a string token, add it to the
dictionary unless its upper-cased key was already added. -/
def dictionaryPairsGo : List (TemplateToken × TemplateToken) → List (String × TemplateToken) →
    List (String × TemplateToken)
  | [], acc => acc
  | (k, v) :: rest, acc =>
    match k with
    | .str s =>
      if acc.any (fun p => (jsToUpper p.1) == (jsToUpper s)) then dictionaryPairsGo rest acc
      else dictionaryPairsGo rest (acc ++ [(s, v)])
    | _ => dictionaryPairsGo rest acc

/-- Dictionary built by `MappingToken.initializeDictionary`
(`dictionaryPairs` plus, implicitly, the `dictionaryIndexLookup` that
maps each upper-cased key to its index). -/
def MappingToken.dictionaryPairs (pairs : List (TemplateToken × TemplateToken)) :
    List (String × TemplateToken) :=
  dictionaryPairsGo pairs []

/-- Translation of `MappingToken.hasObjectKey` from
`src/templates/tokens.ts` (lines 758-765): membership of the upper-cased
key in the index lookup. -/
def MappingToken.hasObjectKey (pairs : List (TemplateToken × TemplateToken)) (key : String) :
    Bool :=
  (MappingToken.dictionaryPairs pairs).any (fun p => (jsToUpper p.1) == (jsToUpper key))

/-- Translation of `MappingToken.getObjectKeys` (lines 770-773). -/
def MappingToken.getObjectKeys (pairs : List (TemplateToken × TemplateToken)) : List String :=
  (MappingToken.dictionaryPairs pairs).map Prod.fst

/-- Translation of `MappingToken.getObjectKeyCount` (lines 778-781). -/
def MappingToken.getObjectKeyCount (pairs : List (TemplateToken × TemplateToken)) : Nat :=
  (MappingToken.dictionaryPairs pairs).length

/-- Translation of `MappingToken.getObjectValue` (lines 786-795): the
index lookup resolves the upper-cased key to the index of its dictionary
pair (the first pair added with that upper-cased key), or undefined. -/
def MappingToken.getObjectValue (pairs : List (TemplateToken × TemplateToken)) (key : String) :
    Option TemplateToken :=
  ((MappingToken.dictionaryPairs pairs).find? (fun p => (jsToUpper p.1) == (jsToUpper key))).map Prod.snd

/-- Specification-side lookup for C10: scan the original pairs in
insertion order and return the first pair whose key is a string token
equal to the probe under upper-cased comparison (with its original-case
key). -/
def firstStringMatchPair (pairs : List (TemplateToken × TemplateToken)) (key : String) :
    Option (String × TemplateToken) :=
  pairs.findSome? (fun p =>
    match p.1 with
    | .str s => if (jsToUpper s) == (jsToUpper key) then some (s, p.2) else none
    | _ => none)

/-- Operation alphabet for exercising a `MemoryCounter`: the byte-level
add / tryAdd / subtract entry points (the string and helper entry points
of the source reduce to these with computed non-negative amounts). -/
inductive MCOp where
  | add : Int → MCOp
  | tryAdd : Int → MCOp
  | sub : Int → MCOp
deriving DecidableEq, Repr

/-- Amount carried by a counter operation. -/
def MCOp.amount : MCOp → Int
  | .add n | .tryAdd n | .sub n => n

/-- Run a sequence of counter operations; a thrown error aborts the
sequence (as a JavaScript exception would). -/
def runCounterOps : List MCOp → MemoryCounter → Except String MemoryCounter
  | [], c => .ok c
  | .add n :: rest, c => (c.addAmount n).bind (runCounterOps rest)
  | .tryAdd n :: rest, c => runCounterOps rest (c.tryAddAmount n).2
  | .sub n :: rest, c => (c.subtractAmount n).bind (runCounterOps rest)

/-- Event alphabet of the `ObjectReader` contract consumed by
`TemplateReader` (`src/templates/tokens.ts` interface `ObjectReader`):
a literal, or a sequence/mapping start/end.  The reader's `allow*`
methods consume the head event when it matches. -/
inductive REvent where
  | lit : TemplateToken → REvent
  | seqStart : REvent
  | seqEnd : REvent
  | mapStart : REvent
  | mapEnd : REvent
deriving Repr

mutual

/-- Translation of the private `TemplateReader.skipValue` from
`src/templates/template-reader.ts` (lines 411-437): consume a literal,
or mirror a sequence (`while (!allowSequenceEnd()) skipValue()`)
or a mapping (`while (!allowMappingEnd()) { skipValue(); skipValue() }`)
with depth accounting, so the sub-tree's events are consumed and
balanced.  The loops are made structural with a fuel parameter
(exhaustion is a model artifact reported as an error). -/
def TemplateReader.skipValue : Nat → List REvent → TemplateMemory →
    Except String (List REvent × TemplateMemory)
  | 0, _, _ => .error "out of fuel"
  | fuel + 1, events, mem =>
    match events with
    | .lit _ :: rest => .ok (rest, mem)
    | .seqStart :: rest => do
      let mem ← mem.incrementDepth
      let (rest, mem) ← TemplateReader.skipSeqLoop fuel rest mem
      let mem ← mem.decrementDepth
      .ok (rest, mem)
    | .mapStart :: rest => do
      let mem ← mem.incrementDepth
      let (rest, mem) ← TemplateReader.skipMapLoop fuel rest mem
      let mem ← mem.decrementDepth
      .ok (rest, mem)
    | _ => .error "Expected a scalar value, a sequence, or a mapping"

/-- Loop `while (!this._objectReader.allowSequenceEnd()) this.skipValue()`
inside `skipValue`. -/
def TemplateReader.skipSeqLoop : Nat → List REvent → TemplateMemory →
    Except String (List REvent × TemplateMemory)
  | 0, _, _ => .error "out of fuel"
  | fuel + 1, events, mem =>
    match events with
    | .seqEnd :: rest => .ok (rest, mem)
    | _ => do
      let (rest, mem) ← TemplateReader.skipValue fuel events mem
      TemplateReader.skipSeqLoop fuel rest mem

/-- Loop `while (!this._objectReader.allowMappingEnd()) { this.skipValue(); this.skipValue() }`
inside `skipValue`. -/
def TemplateReader.skipMapLoop : Nat → List REvent → TemplateMemory →
    Except String (List REvent × TemplateMemory)
  | 0, _, _ => .error "out of fuel"
  | fuel + 1, events, mem =>
    match events with
    | .mapEnd :: rest => .ok (rest, mem)
    | _ => do
      let (rest, mem) ← TemplateReader.skipValue fuel events mem
      let (rest, mem) ← TemplateReader.skipValue fuel rest mem
      TemplateReader.skipMapLoop fuel rest mem

end

/-- Loop of the illegal-mapping branch of `TemplateReader.readValue`
(`src/templates/template-reader.ts` lines 181-185), translated exactly
as written: `while (this._objectReader.allowMappingEnd()) {
this.skipValue(); this.skipValue() }` — the loop body runs only while a
mapping-END event is next (the condition is NOT negated, unlike the
sequence branch and `skipValue`). -/
def readValueIllegalMappingLoop : Nat → List REvent → TemplateMemory →
    Except String (List REvent × TemplateMemory)
  | 0, _, _ => .error "out of fuel"
  | fuel + 1, events, mem =>
    match events with
    | .mapEnd :: rest => do
      let (rest, mem) ← TemplateReader.skipValue fuel rest mem
      let (rest, mem) ← TemplateReader.skipValue fuel rest mem
      readValueIllegalMappingLoop fuel rest mem
    | _ => .ok (events, mem)

/-- Slice of `TemplateReader.readValue` (`src/templates/template-reader.ts`
lines 139-189) for a mapping-start event at a position whose definition
permits no mapping (`getDefinitionsOfType(DefinitionType.Mapping)` is
empty): consume the mapping start, increment depth, charge the new
(still empty) mapping token, record the validation error
"A mapping was not expected" on the context, run the recovery loop,
decrement depth, and return the remaining events with the collected
errors. -/
def readValueMappingNotExpected (fuel : Nat) (events : List REvent) (mem : TemplateMemory)
    (errors : List String) :
    Except String (List REvent × TemplateMemory × List String) :=
  match events with
  | .mapStart :: rest => do
    let mem ← mem.incrementDepth
    let mem ← mem.addToken (.map []) false
    let errors := errors ++ ["A mapping was not expected"]
    let (rest, mem) ← readValueIllegalMappingLoop fuel rest mem
    let mem ← mem.decrementDepth
    .ok (rest, mem, errors)
  | _ => .error "not a mapping start"

/-- Constant `MAX_DEPTH` from `src/expressions/expression-constants.ts`. -/
def MAX_DEPTH : Nat := 50

/-- Constant `MAX_LENGTH` from `src/expressions/expression-constants.ts`. -/
def MAX_LENGTH : Nat := 21000

/-- Enum `TokenKind` from the lexical analyzer
(`src/expressions/lexical-analyzer.ts`). -/
inductive TokenKind where
  | startGroup | startIndex | startParameters
  | endGroup | endIndex | endParameters
  | separator | dereference | wildcard | logicalOperator
  | null | boolean | number | string
  | propertyName | function | namedContext
  | unexpected
deriving DecidableEq, Repr

/-- Enum `Associativity` from the lexical analyzer. -/
inductive Associativity where
  | none | leftToRight | rightToLeft
deriving DecidableEq, Repr

/-- Class `Token` from the lexical analyzer: kind, raw text, source
index, and the parsed primitive for literal tokens. -/
structure LToken where
  kind : TokenKind
  rawValue : String
  index : Nat
  parsedValue : Option EvalValue := none
deriving Repr

/-- Translation of the getter `Token.isOperator`. -/
def LToken.isOperator (t : LToken) : Bool :=
  match t.kind with
  | .startGroup | .startIndex | .startParameters
  | .endGroup | .endIndex | .endParameters
  | .separator | .dereference | .logicalOperator => true
  | _ => false

/-- Translation of the getter `Token.associativity`. -/
def LToken.associativity (t : LToken) : Associativity :=
  match t.kind with
  | .startGroup => .none
  | .logicalOperator =>
    if t.rawValue = "!" then .rightToLeft
    else if t.isOperator then .leftToRight else .none
  | _ => if t.isOperator then .leftToRight else .none

/-- Translation of the getter `Token.precedence`. -/
def LToken.precedence (t : LToken) : Nat :=
  match t.kind with
  | .startGroup => 20
  | .startIndex | .startParameters | .dereference => 19
  | .logicalOperator =>
    if t.rawValue = "!" then 16
    else if t.rawValue = ">" || t.rawValue = ">=" || t.rawValue = "<" || t.rawValue = "<=" then 11
    else if t.rawValue = "==" || t.rawValue = "!=" then 10
    else if t.rawValue = "&&" then 6
    else if t.rawValue = "||" then 5
    else 0
  | .endGroup | .endIndex | .endParameters | .separator => 1
  | _ => 0

/-- Translation of the getter `Token.operandCount`. -/
def LToken.operandCount (t : LToken) : Nat :=
  match t.kind with
  | .startIndex | .dereference => 2
  | .logicalOperator =>
    if t.rawValue = "!" then 1
    else if t.rawValue = ">" || t.rawValue = ">=" || t.rawValue = "<" || t.rawValue = "<="
        || t.rawValue = "==" || t.rawValue = "!=" || t.rawValue = "&&" || t.rawValue = "||" then 2
    else 0
  | _ => 0

/-- Translation of the static `LexicalAnalyzer.testTokenBoundary`. -/
def testTokenBoundary (c : Char) : Bool :=
  c = '(' || c = '[' || c = ')' || c = ']' || c = ',' || c = '.' ||
    c = '!' || c = '>' || c = '<' || c = '=' || c = '&' || c = '|' || jsIsSpace c

/-- Translation of `expressionUtility.testLegalKeyword` from
`src/expressions/expression-utility.ts`. -/
def testLegalKeyword (str : String) : Bool :=
  match str.data with
  | [] => false
  | first :: _ =>
    (('a' ≤ first && first ≤ 'z') || ('A' ≤ first && first ≤ 'Z') || first = '_') &&
      str.data.all (fun c =>
        ('a' ≤ c && c ≤ 'z') || ('A' ≤ c && c ≤ 'Z') || ('0' ≤ c && c ≤ '9') ||
          c = '_' || c = '-')

/-- Translation of the legality tables in `LexicalAnalyzer.createToken`
(`checkLastToken` calls): whether a token of the given kind (with raw
value, for logical operators) may follow the previous token kind
(`none` = is first). -/
def legalNext (kind : TokenKind) (rawValue : String) (last : Option TokenKind) : Bool :=
  match kind with
  | .startGroup =>
    last = none || last = some .separator || last = some .startGroup ||
      last = some .startParameters || last = some .startIndex || last = some .logicalOperator
  | .startIndex =>
    last = some .endGroup || last = some .endParameters || last = some .endIndex ||
      last = some .wildcard || last = some .propertyName || last = some .namedContext
  | .startParameters => last = some .function
  | .endGroup | .endIndex =>
    last = some .endGroup || last = some .endParameters || last = some .endIndex ||
      last = some .wildcard || last = some .null || last = some .boolean ||
      last = some .number || last = some .string || last = some .propertyName ||
      last = some .namedContext
  | .endParameters =>
    last = some .startParameters ||
      last = some .endGroup || last = some .endParameters || last = some .endIndex ||
      last = some .wildcard || last = some .null || last = some .boolean ||
      last = some .number || last = some .string || last = some .propertyName ||
      last = some .namedContext
  | .separator =>
    last = some .endGroup || last = some .endParameters || last = some .endIndex ||
      last = some .wildcard || last = some .null || last = some .boolean ||
      last = some .number || last = some .string || last = some .propertyName ||
      last = some .namedContext
  | .dereference =>
    last = some .endGroup || last = some .endParameters || last = some .endIndex ||
      last = some .wildcard || last = some .propertyName || last = some .namedContext
  | .wildcard => last = some .startIndex || last = some .dereference
  | .logicalOperator =>
    if rawValue = "!" then
      last = none || last = some .separator || last = some .startGroup ||
        last = some .startParameters || last = some .startIndex || last = some .logicalOperator
    else
      last = some .endGroup || last = some .endParameters || last = some .endIndex ||
        last = some .wildcard || last = some .null || last = some .boolean ||
        last = some .number || last = some .string || last = some .propertyName ||
        last = some .namedContext
  | .null | .boolean | .number | .string =>
    last = none || last = some .separator || last = some .startIndex ||
      last = some .startGroup || last = some .startParameters || last = some .logicalOperator
  | .propertyName => last = some .dereference
  | .function =>
    last = none || last = some .separator || last = some .startIndex ||
      last = some .startGroup || last = some .startParameters || last = some .logicalOperator
  | .namedContext =>
    last = none || last = some .separator || last = some .startIndex ||
      last = some .startGroup || last = some .startParameters || last = some .logicalOperator
  | .unexpected => false

/-- Mutable state of the class `LexicalAnalyzer`: the raw expression,
the current index, the last token, and the unclosed start tokens
(top of stack at the head). -/
structure LexState where
  expression : List Char
  index : Nat
  lastToken : Option LToken := none
  unclosedTokens : List LToken := []
deriving Repr

/-- Substring helper modelling JavaScript `string.substr(start, len)`. -/
def substrCL (cs : List Char) (start len : Nat) : String :=
  String.mk ((cs.drop start).take len)

/-- Translation of the private `LexicalAnalyzer.createToken`: checks the
legality tables, tracks the unclosed-token stack, and degrades to an
`Unexpected` token on violations. -/
def LexState.createToken (st : LexState) (kind : TokenKind) (rawValue : String) (index : Nat)
    (parsedValue : Option EvalValue := none) : LToken × LexState :=
  if !legalNext kind rawValue (st.lastToken.map (·.kind)) then
    ({ kind := .unexpected, rawValue := rawValue, index := index }, st)
  else
    let token : LToken := { kind := kind, rawValue := rawValue, index := index,
                            parsedValue := parsedValue }
    match kind with
    | .startGroup | .startIndex | .startParameters =>
      (token, { st with unclosedTokens := token :: st.unclosedTokens })
    | .endGroup =>
      if (st.unclosedTokens.head?.map (·.kind)) ≠ some TokenKind.startGroup then
        ({ kind := .unexpected, rawValue := rawValue, index := index }, st)
      else (token, { st with unclosedTokens := st.unclosedTokens.tail })
    | .endIndex =>
      if (st.unclosedTokens.head?.map (·.kind)) ≠ some TokenKind.startIndex then
        ({ kind := .unexpected, rawValue := rawValue, index := index }, st)
      else (token, { st with unclosedTokens := st.unclosedTokens.tail })
    | .endParameters =>
      if (st.unclosedTokens.head?.map (·.kind)) ≠ some TokenKind.startParameters then
        ({ kind := .unexpected, rawValue := rawValue, index := index }, st)
      else (token, { st with unclosedTokens := st.unclosedTokens.tail })
    | .separator =>
      if (st.unclosedTokens.head?.map (·.kind)) ≠ some TokenKind.startParameters then
        ({ kind := .unexpected, rawValue := rawValue, index := index }, st)
      else (token, st)
    | _ => (token, st)

/-- Translation of the private `LexicalAnalyzer.readNumberToken`:
advance past the first character and then past every character that is
not a token boundary or is a `.`, parse with the host number parse, and
produce a Number token (or Unexpected when NaN). -/
def LexState.readNumberToken (st : LexState) : LToken × LexState :=
  let startIndex := st.index
  let extra := ((st.expression.drop (startIndex + 1)).takeWhile
    (fun c => !testTokenBoundary c || c = '.')).length
  let newIndex := startIndex + 1 + extra
  let st := { st with index := newIndex }
  let str := substrCL st.expression startIndex (newIndex - startIndex)
  let n := parseNumber str
  if n.isNaN then st.createToken .unexpected str startIndex
  else st.createToken .number str startIndex (some (.num n))

/-- Translation of the private `LexicalAnalyzer.readKeywordToken`:
read to the next token boundary; on a legal keyword produce
PropertyName (after `.`), the literal keywords, a Function (when the
lookahead past whitespace is `(`) or a NamedContext; otherwise
Unexpected. -/
def LexState.readKeywordToken (st : LexState) : LToken × LexState :=
  let startIndex := st.index
  let extra := ((st.expression.drop (startIndex + 1)).takeWhile
    (fun c => !testTokenBoundary c)).length
  let newIndex := startIndex + 1 + extra
  let st := { st with index := newIndex }
  let str := substrCL st.expression startIndex (newIndex - startIndex)
  if testLegalKeyword str then
    if st.lastToken.map (·.kind) = some TokenKind.dereference then
      st.createToken .propertyName str startIndex
    else if str = "null" then st.createToken .null str startIndex
    else if str = "true" then st.createToken .boolean str startIndex (some (.bool true))
    else if str = "false" then st.createToken .boolean str startIndex (some (.bool false))
    else if str = "NaN" then st.createToken .number str startIndex (some (.num .nan))
    else if str = "Infinity" then st.createToken .number str startIndex (some (.num .posInf))
    else
      let tempIndex := st.index + ((st.expression.drop st.index).takeWhile jsIsSpace).length
      if st.expression.get? tempIndex = some '(' then
        st.createToken .function str startIndex
      else
        st.createToken .namedContext str startIndex
  else st.createToken .unexpected str startIndex

/-- Character-consuming loop of `LexicalAnalyzer.readStringToken`
(fuelled; each step consumes at least one character).  Returns the
accumulated string value, whether the closing quote was found, and the
new index. -/
def readStringGo : Nat → List Char → Nat → String → String × Bool × Nat
  | 0, _, i, acc => (acc, false, i)
  | fuel + 1, expr, i, acc =>
    match expr.get? i with
    | none => (acc, false, i)
    | some c =>
      let i := i + 1
      if c = '\'' then
        if expr.get? i ≠ some '\'' then (acc, true, i)
        else readStringGo fuel expr (i + 1) (acc.push c)
      else readStringGo fuel expr i (acc.push c)

/-- Translation of the private `LexicalAnalyzer.readStringToken`
(`''` is an escaped single quote inside the string). -/
def LexState.readStringToken (st : LexState) : LToken × LexState :=
  let startIndex := st.index
  let (str, closed, newIndex) :=
    readStringGo (st.expression.length + 1) st.expression (startIndex + 1) ""
  let st := { st with index := newIndex }
  let rawValue := substrCL st.expression startIndex (newIndex - startIndex)
  if closed then st.createToken .string rawValue startIndex (some (.str str))
  else st.createToken .unexpected rawValue startIndex

/-- Translation of the private `LexicalAnalyzer.readOperator`:
try the two-character operators, then the one-character operators, then
degrade to Unexpected (consuming to the next boundary). -/
def LexState.readOperator (st : LexState) : LToken × LexState :=
  let startIndex := st.index
  let twoChar? : Option String :=
    if startIndex + 1 < st.expression.length then
      let raw := substrCL st.expression startIndex 2
      if raw = "!=" || raw = ">=" || raw = "<=" || raw = "==" || raw = "&&" || raw = "||" then
        some raw
      else none
    else none
  match twoChar? with
  | some raw => ({ st with index := startIndex + 2 }).createToken .logicalOperator raw startIndex
  | none =>
    let raw := substrCL st.expression startIndex 1
    if raw = "!" || raw = ">" || raw = "<" then
      ({ st with index := startIndex + 1 }).createToken .logicalOperator raw startIndex
    else
      let extra := ((st.expression.drop (startIndex + 1)).takeWhile
        (fun c => !testTokenBoundary c)).length
      let newIndex := startIndex + 1 + extra
      let raw := substrCL st.expression startIndex (newIndex - startIndex)
      ({ st with index := newIndex }).createToken .unexpected raw startIndex

/-- Translation of `LexicalAnalyzer.getNextToken`: skip whitespace,
dispatch on the first character, and record the produced token as
`_lastToken`. -/
def LexState.getNextToken (st : LexState) : Option LToken × LexState :=
  let st := { st with
    index := st.index + ((st.expression.drop st.index).takeWhile jsIsSpace).length }
  match st.expression.get? st.index with
  | none => (none, st)
  | some c =>
    let (token, st') :=
      if c = '(' then
        if st.lastToken.map (·.kind) = some TokenKind.function then
          ({ st with index := st.index + 1 }).createToken .startParameters "(" st.index
        else
          ({ st with index := st.index + 1 }).createToken .startGroup "(" st.index
      else if c = '[' then
        ({ st with index := st.index + 1 }).createToken .startIndex "[" st.index
      else if c = ')' then
        if st.unclosedTokens.head?.map (·.kind) = some TokenKind.startParameters then
          ({ st with index := st.index + 1 }).createToken .endParameters ")" st.index
        else
          ({ st with index := st.index + 1 }).createToken .endGroup ")" st.index
      else if c = ']' then
        ({ st with index := st.index + 1 }).createToken .endIndex "]" st.index
      else if c = ',' then
        ({ st with index := st.index + 1 }).createToken .separator "," st.index
      else if c = '*' then
        ({ st with index := st.index + 1 }).createToken .wildcard "*" st.index
      else if c = '\'' then st.readStringToken
      else if c = '!' || c = '>' || c = '<' || c = '=' || c = '&' || c = '|' then
        st.readOperator
      else if c = '.' then
        let lk := st.lastToken.map (·.kind)
        if lk.isNone || lk == some TokenKind.separator || lk == some TokenKind.startGroup ||
            lk == some TokenKind.startIndex || lk == some TokenKind.startParameters ||
            lk == some TokenKind.logicalOperator then
          st.readNumberToken
        else
          ({ st with index := st.index + 1 }).createToken .dereference "." st.index
      else if c = '-' || c = '+' || ('0' ≤ c && c ≤ '9') then
        st.readNumberToken
      else
        st.readKeywordToken
    (some token, { st' with lastToken := some token })

/-- Kind discriminant for the built-in functions of the parser's
catalog (`WELL_KNOWN_FUNCTIONS` in `src/expressions/parser.ts`), plus
the `NoOperationFunction` used for unknown names in syntax-only mode. -/
inductive FuncKind where
  | contains | endsWith | format | join | startsWith | toJson | fromJson | noOperation
deriving DecidableEq, Repr

/-- Node-kind discriminant of the closed sum of container expression
nodes (operators from `src/expressions/operators/*`, functions from
`src/expressions/functions/*`). -/
inductive ContainerKind where
  | index | notOp | equal | notEqual
  | greaterThan | greaterThanOrEqual | lessThan | lessThanOrEqual
  | and | or
  | func : FuncKind → ContainerKind
deriving DecidableEq, Repr

/-- Expression tree node (`AbstractExpressionNode` hierarchy of
`src/expressions/nodes.ts`): Literal, Wildcard, NamedContext, or a
Container (operator or function) with its name (set for functions and
named contexts) and parameter list. -/
inductive ExprNode where
  | literal : EvalValue → ExprNode
  | wildcard : ExprNode
  | namedContext : String → ExprNode
  | container : ContainerKind → String → List ExprNode → ExprNode
deriving Repr

/-- Name of a node (`AbstractExpressionNode.name`, default `""`). -/
def ExprNode.name : ExprNode → String
  | .namedContext n => n
  | .container _ n _ => n
  | _ => ""

/-- Record `FunctionInfo` from `src/expressions/parser.ts`
(`createNode` is represented by the function-kind discriminant). -/
structure FunctionInfo where
  name : String
  minParameters : Nat
  maxParameters : Nat
  kind : FuncKind
deriving DecidableEq, Repr

/-- The `WELL_KNOWN_FUNCTIONS` catalog built at the top of
`src/expressions/parser.ts`: contains(2,2), endsWith(2,2),
format(1,255), join(1,2), startsWith(2,2), toJson(1,1), fromJson(1,1). -/
def wellKnownFunctions : List FunctionInfo :=
  [⟨"contains", 2, 2, .contains⟩, ⟨"endsWith", 2, 2, .endsWith⟩,
   ⟨"format", 1, 255, .format⟩, ⟨"join", 1, 2, .join⟩,
   ⟨"startsWith", 2, 2, .startsWith⟩, ⟨"toJson", 1, 1, .toJson⟩,
   ⟨"fromJson", 1, 1, .fromJson⟩]

/-- Errors thrown inside the lex/shunting-yard phase of the parser
(`createTreeInternal` and helpers): all `ParseErrorKind`s except the two
limit errors, plus the parser's internal coherency `Error`s.  The type
itself witnesses that this phase cannot produce `Exceeded max expression
length/depth`. -/
inductive RunError where
  | unexpectedSymbol : String → Nat → RunError
  | unexpectedEndOfExpression : String → Nat → RunError
  | tooFewParameters : String → Nat → RunError
  | tooManyParameters : String → Nat → RunError
  | unrecognizedFunction : String → Nat → RunError
  | unrecognizedNamedContext : String → Nat → RunError
  | coherency : String → RunError
deriving DecidableEq, Repr

/-- Enum `ParseErrorKind` from `src/expressions/parser.ts`, plus a
`coherency` tag for the parser's plain internal `Error`s. -/
inductive ParseErrorKind where
  | exceededMaxDepth | exceededMaxLength
  | tooFewParameters | tooManyParameters
  | unexpectedEndOfExpression | unexpectedSymbol
  | unrecognizedFunction | unrecognizedNamedContext
  | coherency
deriving DecidableEq, Repr

/-- Error produced by `createParseError` (kind, offending token's raw
text and zero-based index when a token is attached). -/
structure ParseErr where
  kind : ParseErrorKind
  raw : Option String := none
  pos : Option Nat := none
deriving DecidableEq, Repr

/-- Injection of the run-phase errors into `ParseErr`. -/
def RunError.toParseErr : RunError → ParseErr
  | .unexpectedSymbol raw pos => ⟨.unexpectedSymbol, some raw, some pos⟩
  | .unexpectedEndOfExpression raw pos => ⟨.unexpectedEndOfExpression, some raw, some pos⟩
  | .tooFewParameters raw pos => ⟨.tooFewParameters, some raw, some pos⟩
  | .tooManyParameters raw pos => ⟨.tooManyParameters, some raw, some pos⟩
  | .unrecognizedFunction raw pos => ⟨.unrecognizedFunction, some raw, some pos⟩
  | .unrecognizedNamedContext raw pos => ⟨.unrecognizedNamedContext, some raw, some pos⟩
  | .coherency _ => ⟨.coherency, none, none⟩

/-- Translation of `Token.toNode` from the lexical analyzer: build the
operator / literal / wildcard node for a token (the generic `Error`s of
the source's unreachable branches become coherency errors). -/
def LToken.toNode (t : LToken) : Except RunError ExprNode :=
  match t.kind with
  | .startIndex | .dereference => .ok (.container .index "" [])
  | .logicalOperator =>
    if t.rawValue = "!" then .ok (.container .notOp "" [])
    else if t.rawValue = "!=" then .ok (.container .notEqual "" [])
    else if t.rawValue = ">" then .ok (.container .greaterThan "" [])
    else if t.rawValue = ">=" then .ok (.container .greaterThanOrEqual "" [])
    else if t.rawValue = "<" then .ok (.container .lessThan "" [])
    else if t.rawValue = "<=" then .ok (.container .lessThanOrEqual "" [])
    else if t.rawValue = "==" then .ok (.container .equal "" [])
    else if t.rawValue = "&&" then .ok (.container .and "" [])
    else if t.rawValue = "||" then .ok (.container .or "" [])
    else .error (.coherency "Unexpected logical operator when creating node")
  | .null => .ok (.literal .null)
  | .boolean | .number | .string => .ok (.literal (t.parsedValue.getD .null))
  | .propertyName => .ok (.literal (.str t.rawValue))
  | .wildcard => .ok .wildcard
  | _ => .error (.coherency "Unexpected kind when creating node")

/-- Mutable state of `ParseContext` from `src/expressions/parser.ts`
(operand and operator stacks have their tops at the head). -/
structure ParseState where
  lexer : LexState
  operands : List ExprNode := []
  operators : List LToken := []
  token : Option LToken := none
  lastToken : Option LToken := none
  extensionFunctions : List FunctionInfo := []
  extensionNamedContexts : List String := []
  allowUnknownKeywords : Bool := false
deriving Repr

/-- Translation of `getFunctionInfo`:
`WELL_KNOWN_FUNCTIONS[upperName] ?? context.extensionFunctions[upperName]`
(both catalogs are keyed by the upper-cased name). -/
def getFunctionInfo (st : ParseState) (name : String) : Option FunctionInfo :=
  (wellKnownFunctions.find? (fun f => (jsToUpper f.name) == (jsToUpper name))).orElse
    (fun _ => st.extensionFunctions.find? (fun f => (jsToUpper f.name) == (jsToUpper name)))

/-- Translation of `pushOperand` from `src/expressions/parser.ts`
(lines 178-231): build the node for the current token — resolving
function and named-context names against the catalogs, raising
`Unrecognized function` / `Unrecognized named-context` unless the
syntax-only mode allows unknown keywords — and push it. -/
def pushOperand (st : ParseState) : Except RunError ParseState := do
  match st.token with
  | none => .error (.coherency "pushOperand without token")
  | some tok =>
    let node : ExprNode ←
      match tok.kind with
      | .function =>
        let name := tok.rawValue
        match getFunctionInfo st name with
        | some functionInfo => pure (.container (.func functionInfo.kind) name [])
        | none =>
          if st.allowUnknownKeywords then
            pure (.container (.func .noOperation) name [])
          else
            .error (.unrecognizedFunction tok.rawValue tok.index)
      | .namedContext =>
        let name := tok.rawValue
        if st.extensionNamedContexts.any (fun n => (jsToUpper n) == (jsToUpper name)) then
          pure (.namedContext name)
        else if st.allowUnknownKeywords then
          pure (.namedContext name)
        else
          .error (.unrecognizedNamedContext tok.rawValue tok.index)
      | _ => tok.toNode
    .ok { st with operands := node :: st.operands }

/-- Translation of `popOperands`: pop `count` operands, returned in
their natural (non-LIFO) order. -/
def popOperands (count : Nat) (st : ParseState) :
    Except RunError (List ExprNode × ParseState) :=
  if count ≤ st.operands.length then
    .ok ((st.operands.take count).reverse, { st with operands := st.operands.drop count })
  else .error (.coherency "operand stack underflow")

/-- Translation of `popOperator`: pop the top operator, asserting its
kind. -/
def popOperator (expected : TokenKind) (st : ParseState) :
    Except RunError (LToken × ParseState) :=
  match st.operators with
  | tok :: rest =>
    if tok.kind = expected then .ok (tok, { st with operators := rest })
    else .error (.coherency "Expected operator to be popped")
  | [] => .error (.coherency "operator stack empty")

/-- `ContainerNode.addParameter` (append to the parameter list). -/
def addParameterPlain (node operand : ExprNode) : ExprNode :=
  match node with
  | .container k n ps => .container k n (ps ++ [operand])
  | other => other

/-- Parameter addition with the And/Or flattening of `flushTopOperator`
(`src/expressions/parser.ts` lines 293-319): when both the node and the
operand are `&&` (resp. `||`), the operand's parameters are spliced in. -/
def addParameterFlatten (node operand : ExprNode) : ExprNode :=
  match node, operand with
  | .container .and n ps, .container .and _ nested => .container .and n (ps ++ nested)
  | .container .or n ps, .container .or _ nested => .container .or n (ps ++ nested)
  | _, _ => addParameterPlain node operand

/-- Identity proxy used for the coherency check
`operator !== context.token` of `flushTopEndParameters` (kind, raw
value and index determine the token uniquely within one parse). -/
def tokensMatch (a b : LToken) : Bool :=
  a.kind == b.kind && a.rawValue == b.rawValue && a.index == b.index

/-- Translation of `flushTopEndGroup`: pop `)` then `(`. -/
def flushTopEndGroup (st : ParseState) : Except RunError ParseState := do
  let (_, st) ← popOperator .endGroup st
  let (_, st) ← popOperator .startGroup st
  .ok st

/-- Translation of `flushTopEndIndex`: pop `]` then `[`, build the Index
node from its two operands, and push it. -/
def flushTopEndIndex (st : ParseState) : Except RunError ParseState := do
  let (_, st) ← popOperator .endIndex st
  let (operator, st) ← popOperator .startIndex st
  let node ← operator.toNode
  let (operands, st) ← popOperands operator.operandCount st
  let node := operands.foldl addParameterPlain node
  .ok { st with operands := node :: st.operands }

/-- Translation of `flushTopEndParameters` (`src/expressions/parser.ts`
lines 358-416): pop `)`, collect the comma-separated operands into the
function node already sitting on the operand stack, pop `(`, and check
the declared min/max arity. -/
def flushTopEndParameters (st : ParseState) : Except RunError ParseState := do
  let (operator, st) ← popOperator .endParameters st
  -- Coherency check - top operator is the current token
  match st.token with
  | none => .error (.coherency "Expected the operator to be the current token")
  | some tok =>
    if !tokensMatch operator tok then
      .error (.coherency "Expected the operator to be the current token")
    else do
      let st ←
        if st.lastToken.map (·.kind) = some TokenKind.startParameters then
          -- No parameters; node already exists on the operand stack
          .ok st
        else do
          -- Pop the operands
          let sepCount := (st.operators.takeWhile (fun o => o.kind == TokenKind.separator)).length
          let parameterCount := 1 + sepCount
          let st := { st with operators := st.operators.drop sepCount }
          let (functionOperands, st) ← popOperands parameterCount st
          match st.operands with
          | func :: restOperands =>
            let func := functionOperands.foldl addParameterPlain func
            .ok { st with operands := func :: restOperands }
          | [] => .error (.coherency "operand stack empty")
      -- Pop the "(" operator too
      let (operator, st) ← popOperator .startParameters st
      -- Check min/max parameter count
      match st.operands with
      | func :: _ =>
        let params :=
          match func with
          | .container _ _ ps => ps
          | _ => []
        match getFunctionInfo st func.name with
        | none =>
          if st.allowUnknownKeywords then .ok st
          else .error (.coherency "function info missing")
        | some functionInfo =>
          if params.length < functionInfo.minParameters then
            .error (.tooFewParameters operator.rawValue operator.index)
          else if params.length > functionInfo.maxParameters then
            .error (.tooManyParameters operator.rawValue operator.index)
          else .ok st
      | [] => .error (.coherency "operand stack empty")

/-- Translation of `flushTopOperator`: special handling for the closing
operators, otherwise pop one operator, build its node from its operand
count (with And/Or flattening) and push it. -/
def flushTopOperator (st : ParseState) : Except RunError ParseState := do
  match st.operators with
  | [] => .error (.coherency "operator stack empty")
  | top :: restOperators =>
    match top.kind with
    | .endIndex => flushTopEndIndex st
    | .endGroup => flushTopEndGroup st
    | .endParameters => flushTopEndParameters st
    | _ => do
      let operator := top
      let st := { st with operators := restOperators }
      let node ← operator.toNode
      let (operands, st) ← popOperands operator.operandCount st
      let node := operands.foldl addParameterFlatten node
      .ok { st with operands := node :: st.operands }

/-- Loop `while (context.operators.length > 0) { ... flushTopOperator ... }`
of `pushOperator` (flush all stacked operators of higher or equal
precedence, stopping at `(`, `[`, function `(`, and `,`); fuelled — each
flush pops at least one operator. -/
def pushOperatorFlushLoop : Nat → Nat → ParseState → Except RunError ParseState
  | 0, _, _ => .error (.coherency "out of fuel")
  | fuel + 1, precedence, st =>
    match st.operators with
    | [] => .ok st
    | topOperator :: _ =>
      if precedence ≤ topOperator.precedence &&
          topOperator.kind != TokenKind.startGroup &&
          topOperator.kind != TokenKind.startIndex &&
          topOperator.kind != TokenKind.startParameters &&
          topOperator.kind != TokenKind.separator then do
        let st ← flushTopOperator st
        pushOperatorFlushLoop fuel precedence st
      else .ok st

/-- Translation of `pushOperator` (`src/expressions/parser.ts` lines
233-268): flush higher-or-equal precedence when left-to-right
associative, push the operator, and immediately process closing
operators. -/
def pushOperator (st : ParseState) : Except RunError ParseState := do
  match st.token with
  | none => .error (.coherency "pushOperator without token")
  | some tok => do
    let st ←
      if tok.associativity = Associativity.leftToRight then
        pushOperatorFlushLoop (st.operators.length + 1) tok.precedence st
      else .ok st
    let st := { st with operators := tok :: st.operators }
    match tok.kind with
    | .endGroup | .endIndex | .endParameters => flushTopOperator st
    | _ => .ok st

/-- Token-pumping loop at the top of `createTreeInternal`: get the next
token, raise `Unexpected symbol` for Unexpected tokens, push operator or
operand, and record `lastToken`; fuelled — every token consumes at least
one character of the expression. -/
def parseLoop : Nat → ParseState → Except RunError ParseState
  | 0, _ => .error (.coherency "out of fuel")
  | fuel + 1, st =>
    let (tok?, lexer) := st.lexer.getNextToken
    let st := { st with lexer := lexer, token := tok? }
    match tok? with
    | none => .ok st
    | some tok =>
      if tok.kind = TokenKind.unexpected then
        .error (.unexpectedSymbol tok.rawValue tok.index)
      else do
        let st ← if tok.isOperator then pushOperator st else pushOperand st
        parseLoop fuel { st with lastToken := some tok }

/-- Final `while (context.operators.length > 0) flushTopOperator(context)`
of `createTreeInternal` (fuelled). -/
def flushAllOperators : Nat → ParseState → Except RunError ParseState
  | 0, _ => .error (.coherency "out of fuel")
  | fuel + 1, st =>
    match st.operators with
    | [] => .ok st
    | _ :: _ => do
      let st ← flushTopOperator st
      flushAllOperators fuel st

/-- Translation of `createTreeInternal` from `src/expressions/parser.ts`
(lines 101-176) minus the final `checkMaxDepth`: pump the tokens through
the shunting yard, detect `Unexpected end of expression`, flush the
remaining operators, and return the single resulting operand (none for
an empty token stream). -/
def runShuntingYard (expression : String) (namedContexts : List String)
    (functions : List FunctionInfo) (allowUnknownKeywords : Bool) :
    Except RunError (Option ExprNode) := do
  let st0 : ParseState := {
    lexer := { expression := expression.data, index := 0 }
    extensionFunctions := functions
    extensionNamedContexts := namedContexts
    allowUnknownKeywords := allowUnknownKeywords }
  let st ← parseLoop (expression.length + 2) st0
  match st.lastToken with
  | none => .ok none
  | some lastToken =>
    -- Check unexpected end of expression
    let unexpectedLastToken :=
      match lastToken.kind with
      | .endGroup | .endIndex | .endParameters => false
      | .function => true
      | _ => lastToken.isOperator
    if st.operators.length > 0 &&
        (unexpectedLastToken || !st.lexer.unclosedTokens.isEmpty) then
      .error (.unexpectedEndOfExpression lastToken.rawValue lastToken.index)
    else do
      -- Flush operators
      let st ← flushAllOperators (st.operators.length + 1) st
      -- Coherency check - verify exactly one operand
      match st.operands with
      | [result] => .ok (some result)
      | _ => .error (.coherency "Expected exactly one operand")

mutual

/-- Translation of `checkMaxDepth` from `src/expressions/parser.ts`
(lines 450-469): walk the finished tree, throwing `Exceeded max
expression depth` as soon as the depth (1 at the root) exceeds
`MAX_DEPTH`. -/
def checkMaxDepth : ExprNode → Nat → Except ParseErr Unit
  | node, depth =>
    if depth > MAX_DEPTH then .error { kind := .exceededMaxDepth }
    else
      match node with
      | .container _ _ params => checkMaxDepthList params (depth + 1)
      | _ => .ok ()

/-- Iteration over a container's parameters inside `checkMaxDepth`
(the `for` loop: stop at the first thrown error). -/
def checkMaxDepthList : List ExprNode → Nat → Except ParseErr Unit
  | [], _ => .ok ()
  | p :: rest, depth =>
    match checkMaxDepth p depth with
    | .error e => .error e
    | .ok _ => checkMaxDepthList rest depth

end

/-- Tail of `createTreeInternal`: inject the run-phase outcome and run
`checkMaxDepth(context, result)` on the produced tree ("No tokens"
returns undefined). -/
def applyDepthCheck : Except RunError (Option ExprNode) → Except ParseErr (Option ExprNode)
  | .error e => .error e.toParseErr
  | .ok none => .ok none
  | .ok (some tree) =>
    match checkMaxDepth tree 1 with
    | .error e => .error e
    | .ok _ => .ok (some tree)

/-- Translation of `createExpressionTree` from
`src/expressions/parser.ts` (lines 75-84): the `ParseContext`
constructor's length guard runs first (before any lexing), then the
shunting yard, then `checkMaxDepth` on the resulting tree. -/
def createExpressionTree (expression : String) (namedContexts : List String)
    (functions : List FunctionInfo) : Except ParseErr (Option ExprNode) :=
  if expression.length > MAX_LENGTH then .error { kind := .exceededMaxLength }
  else applyDepthCheck (runShuntingYard expression namedContexts functions false)

mutual

/-- Specification-side depth of an expression tree: 1 for a leaf, one
more than the deepest parameter for a container (this is the quantity
`checkMaxDepth` walks with its `depth` argument, starting at 1). -/
def treeDepth : ExprNode → Nat
  | .container _ _ params => 1 + treeDepthList params
  | _ => 1

/-- Maximum depth over a parameter list (0 for the empty list). -/
def treeDepthList : List ExprNode → Nat
  | [] => 0
  | p :: rest => max (treeDepth p) (treeDepthList rest)

end

/-- A string one character past the maximum expression length. -/
def longExpr : String := String.mk (List.replicate (MAX_LENGTH + 1) 'x')

/-! ## TemplateUnraveler (`src/unnamed/part_001`)

The unraveler walks a `TemplateToken` tree as a stream of events.  Its
mutable state is a chain of `ReaderState` objects linked through
`parent`; we embed the chain as a list of frames whose head is
`_current` and whose tail holds the ancestors in order.  Every state
class stores the token it wraps and the `removeBytes` handed to its
constructor, and the per-class mutable flags (`_isStart`, `_index`,
`_isKey`) live in the frame's `kind`. -/

/-- Per-class mutable position flags of the `ReaderState` subclasses:
`LiteralState` has none, `SequenceState` has `_isStart`/`_index`,
`MappingState` has `_isStart`/`_index`/`_isKey`, and the two expression
states have `_isStart`. -/
inductive FrameKind where
  | literal : FrameKind
  | sequence : Bool → Nat → FrameKind
  | mapping : Bool → Nat → Bool → FrameKind
  | basicExpr : Bool → FrameKind
  | insertExpr : Bool → FrameKind
deriving DecidableEq, Repr

/-- One `ReaderState` object: its class and position flags (`kind`), the
wrapped token (`value`), and the `removeBytes` stored by the
constructor. -/
structure Frame where
  kind : FrameKind
  value : TemplateToken
  removeBytes : Int
deriving Repr

/-- Token-type tests used by the unraveler's `templateTokenType ===`
guards: sequence tokens. -/
def TemplateToken.isSeq : TemplateToken → Bool
  | .seq _ => true
  | _ => false

/-- Token-type test: mapping tokens. -/
def TemplateToken.isMap : TemplateToken → Bool
  | .map _ => true
  | _ => false

/-- Token-type test: basic-expression tokens. -/
def TemplateToken.isBasicExpr : TemplateToken → Bool
  | .basicExpr _ => true
  | _ => false

/-- Token-type test: insert-expression tokens. -/
def TemplateToken.isInsertExpr : TemplateToken → Bool
  | .insertExpr => true
  | _ => false

/-- Reading `(state as SequenceState).isStart` (and the casts to the
other classes) accesses the `_isStart` field of whatever class the state
actually is; `LiteralState` has no such field and yields `undefined`,
which is falsy. -/
def FrameKind.isStartFlag : FrameKind → Bool
  | .literal => false
  | .sequence s _ => s
  | .mapping s _ _ => s
  | .basicExpr s => s
  | .insertExpr s => s

/-- Reading `(state as MappingState).isKey`: the `_isKey` field exists
only on `MappingState`; on every other class the access yields
`undefined`, which is falsy. -/
def FrameKind.isKeyFlag : FrameKind → Bool
  | .mapping _ _ k => k
  | _ => false

/-- The `isEnd` getter of the actual class of the state:
`SequenceState.isEnd` is `!isStart && index >= sequence.count`,
`MappingState.isEnd` is `!isStart && index >= mapping.count`, both
expression states use `!isStart`, and `LiteralState` has no getter
(`undefined`, falsy).  When a sequence or mapping state wraps a token
with no `count` the comparison against `undefined` is false. -/
def Frame.isEndFlag (f : Frame) : Bool :=
  match f.kind, f.value with
  | .sequence s i, .seq items => !s && decide (items.length ≤ i)
  | .mapping s i _, .map pairs => !s && decide (pairs.length ≤ i)
  | .basicExpr s, _ => !s
  | .insertExpr s, _ => !s
  | _, _ => false

/-- Class selected by `ReaderState.createState` for a token, with the
initial position flags set by the constructors (`_isStart = true`,
`_index = 0`, `_isKey = false`). -/
def stateKindOf : TemplateToken → FrameKind
  | .null | .bool _ | .num _ | .str _ => .literal
  | .seq _ => .sequence true 0
  | .map _ => .mapping true 0 false
  | .basicExpr _ => .basicExpr true
  | .insertExpr => .insertExpr true

/-- Translation of `ReaderState.createState` plus the common constructor
body of every state class: reject a positive `removeBytes` for an
insert-expression state, then `memory.addToken(value, false)` and
`memory.incrementDepth()`, storing `removeBytes` on the new state. -/
def createFrame (value : TemplateToken) (removeBytes : Int) (mem : TemplateMemory) :
    Except String (Frame × TemplateMemory) :=
  if value.isInsertExpr && decide (removeBytes > 0) then
    .error "Unexpected removeBytes when creating insert expression state"
  else do
    let mem ← mem.addToken value false
    let mem ← mem.incrementDepth
    .ok ({ kind := stateKindOf value, value := value, removeBytes := removeBytes }, mem)

/-- Translation of the `remove()` methods: every class runs
`subtractToken(value, false)` then `decrementDepth()`, and the four
classes that store `removeBytes` subtract it when positive
(`InsertExpressionState` stores none, but its frames always carry
`removeBytes = 0`, so the uniform guard is faithful). -/
def Frame.remove (f : Frame) (mem : TemplateMemory) : Except String TemplateMemory := do
  let mem ← mem.subtractToken f.value false
  let mem ← mem.decrementDepth
  if f.removeBytes > 0 then mem.subtractAmount f.removeBytes else .ok mem

/-- Translation of `SequenceState.next()`: move off the start or advance
the index, then either stay on the sequence (at the end) or create the
state for the item at the new index (`removeBytes = 0`).  Returns the
optionally created child together with the updated sequence frame.  The
item access happens only under the in-bounds guard, so the `getD`
default is never read. -/
def sequenceStateNextCore (f : Frame) (mem : TemplateMemory) :
    Except String (Option Frame × Frame × TemplateMemory) :=
  match f.kind, f.value with
  | .sequence isStart index, .seq items =>
    let index := if isStart then index else index + 1
    let f := { f with kind := .sequence false index }
    if decide (items.length ≤ index) then
      .ok (none, f, mem)
    else do
      let (child, mem) ← createFrame (items.getD index .null) 0 mem
      .ok (some child, f, mem)
  | _, _ => .error "Unexpected state while unraveling expressions."

/-- The `this._current = sequenceState.next()` pattern on the frame
list: the updated sequence frame replaces the old one, and the created
child (if any) becomes the new current frame on top of it. -/
def sequenceStateNext (f : Frame) (anc : List Frame) (mem : TemplateMemory) :
    Except String (List Frame × TemplateMemory) := do
  let (child, f, mem) ← sequenceStateNextCore f mem
  match child with
  | some c => .ok (c :: f :: anc, mem)
  | none => .ok (f :: anc, mem)

/-- Translation of `MappingState.next()`: move start → key → value →
next key, then either stay on the mapping (at the end) or create the
state for the key or value at the new position (`removeBytes = 0`). -/
def mappingStateNextCore (f : Frame) (mem : TemplateMemory) :
    Except String (Option Frame × Frame × TemplateMemory) :=
  match f.kind, f.value with
  | .mapping isStart index isKey, .map pairs =>
    let p := if isStart then (index, true)
      else if isKey then (index, false)
      else (index + 1, true)
    let f := { f with kind := .mapping false p.1 p.2 }
    if decide (pairs.length ≤ p.1) then
      .ok (none, f, mem)
    else do
      let pair := pairs.getD p.1 (.null, .null)
      let (child, mem) ← createFrame (if p.2 then pair.1 else pair.2) 0 mem
      .ok (some child, f, mem)
  | _, _ => .error "Unexpected state while unraveling expressions."

/-- The `this._current = mappingState.next()` pattern on the frame
list. -/
def mappingStateNext (f : Frame) (anc : List Frame) (mem : TemplateMemory) :
    Except String (List Frame × TemplateMemory) := do
  let (child, f, mem) ← mappingStateNextCore f mem
  match child with
  | some c => .ok (c :: f :: anc, mem)
  | none => .ok (f :: anc, mem)

/-- Translation of `TemplateUnraveler.endExpression`: at the root the
expression state is removed and the cursor cleared; a basic-expression
end is removed and the parent sequence or mapping advanced; an insert
expression end is removed, the parent mapping's next state (the item
value) is created and immediately removed, and the mapping advances to
the next key or its end. -/
def endExpression (f : Frame) (rest : List Frame) (mem : TemplateMemory) :
    Except String (List Frame × TemplateMemory) :=
  match rest with
  | [] => do
    let mem ← f.remove mem
    .ok ([], mem)
  | parent :: anc =>
    if f.value.isBasicExpr then
      if parent.value.isSeq then do
        let mem ← f.remove mem
        sequenceStateNext parent anc mem
      else do
        let mem ← f.remove mem
        mappingStateNext parent anc mem
    else do
      let mem ← f.remove mem
      let r1 ← mappingStateNextCore parent mem
      let (child1, parent, mem) := r1
      let mem ← (match child1 with
        | some c => c.remove mem
        | none => parent.remove mem)
      let r2 ← mappingStateNextCore parent mem
      let (child2, parent, mem) := r2
      match child2 with
      | some c => .ok (c :: parent :: anc, mem)
      | none => .ok (parent :: anc, mem)

/-- Guard of the sequence-insertion pop in `unravel`: the current
sequence end sits under a basic expression that itself sits under a
sequence. -/
def seqEndClosesInsertion (rest : List Frame) : Bool :=
  match rest with
  | p :: gp :: _ => p.value.isBasicExpr && gp.value.isSeq
  | _ => false

/-- Translation of the loop of `TemplateUnraveler.unravel` specialized
to `expand = false`: each branch of the source that reads
`if (expand) ... else break` is the plain break here, and everything
else is kept: literals and sequence/mapping starts and ends stop the
loop, expression ends run `endExpression`, a mapping end under an insert
expression and a sequence end under a basic expression under a sequence
are popped, a not-allowed insert-expression start records a context
error and is replaced by the literal string `$\x7b\x7b insert \x7d\x7d`
via `toStringToken`, and every other configuration throws
`Unexpected state while unraveling expressions`.  The loop is fuelled;
exhausting the fuel aborts like an exception. -/
def unravelFalse : Nat → List Frame → TemplateMemory →
    Except String (List Frame × TemplateMemory)
  | 0, _, _ => .error "unravel: out of fuel"
  | Nat.succ fuel, frames, mem =>
    match frames with
    | [] => .ok ([], mem)
    | f :: rest =>
      if f.value.isLiteral then .ok (frames, mem)
      else if f.value.isBasicExpr then
        if f.kind.isStartFlag &&
            ((rest.head?.map (fun p => p.value.isSeq || p.value.isMap)).getD false) then
          .ok (frames, mem)
        else if f.kind.isStartFlag && rest.isEmpty then
          .ok (frames, mem)
        else if f.isEndFlag then do
          let r ← endExpression f rest mem
          unravelFalse fuel r.1 r.2
        else .error "Unexpected state while unraveling expressions."
      else if f.value.isMap then
        if f.isEndFlag && ((rest.head?.map (fun p => p.value.isInsertExpr)).getD false) then do
          let mem ← f.remove mem
          unravelFalse fuel rest mem
        else if f.kind.isStartFlag then .ok (frames, mem)
        else if f.isEndFlag then .ok (frames, mem)
        else .error "Unexpected state while unraveling expressions."
      else if f.value.isSeq then
        if f.isEndFlag && seqEndClosesInsertion rest then do
          let mem ← f.remove mem
          unravelFalse fuel rest mem
        else if f.kind.isStartFlag then .ok (frames, mem)
        else if f.isEndFlag then .ok (frames, mem)
        else .error "Unexpected state while unraveling expressions."
      else if f.value.isInsertExpr then
        if f.kind.isStartFlag &&
            ((rest.head?.map (fun p => p.value.isMap && p.kind.isKeyFlag)).getD false) then
          .ok (frames, mem)
        else if f.isEndFlag then do
          let r ← endExpression f rest mem
          unravelFalse fuel r.1 r.2
        else if f.kind.isStartFlag then do
          let mem ← f.remove mem
          let r ← createFrame (.str "$\x7b\x7b insert \x7d\x7d") 0 mem
          unravelFalse fuel (r.1 :: rest) r.2
        else .error "Unexpected state while unraveling expressions."
      else .error "Unexpected state while unraveling expressions."

/-- Translation of `TemplateUnraveler.moveNext(skipNestedEvents)`
without its trailing `unravel(false)` call: descend into a sequence or
mapping start (unless skipping nested events), otherwise remove the
current state and advance the parent sequence or mapping, pop to an
expression-end parent, or clear the cursor at the root. -/
def moveNextCore (skipNestedEvents : Bool) (frames : List Frame) (mem : TemplateMemory) :
    Except String (List Frame × TemplateMemory) :=
  match frames with
  | [] => .ok ([], mem)
  | f :: rest =>
    if f.value.isSeq && f.kind.isStartFlag && !skipNestedEvents then
      sequenceStateNext f rest mem
    else if f.value.isMap && f.kind.isStartFlag && !skipNestedEvents then
      mappingStateNext f rest mem
    else
      match rest with
      | parent :: anc =>
        if parent.value.isSeq then do
          let mem ← f.remove mem
          sequenceStateNext parent anc mem
        else if parent.value.isMap then do
          let mem ← f.remove mem
          mappingStateNext parent anc mem
        else do
          let mem ← f.remove mem
          .ok (parent :: anc, mem)
      | [] => do
        let mem ← f.remove mem
        .ok ([], mem)

/-- Full `moveNext`: the core step followed by `unravel(false)`. -/
def moveNextU (fuel : Nat) (skipNestedEvents : Bool) (frames : List Frame)
    (mem : TemplateMemory) : Except String (List Frame × TemplateMemory) := do
  let r ← moveNextCore skipNestedEvents frames mem
  unravelFalse fuel r.1 r.2

/-- Translation of the `TemplateUnraveler` constructor (`moveFirst`):
reject an insert-expression root, then create the initial reader state
from the template and the `removeBytes` handed in.  The constructor does
not unravel. -/
def unravelerInit (template : TemplateToken) (removeBytes : Int) (mem : TemplateMemory) :
    Except String (List Frame × TemplateMemory) :=
  if template.isInsertExpr then
    .error "Unexpected type when initializing object reader state"
  else do
    let r ← createFrame template removeBytes mem
    .ok ([r.1], r.2)

/-- Public operations of the unraveler used by a non-expanding
traversal; every `allow*` is invoked with `expand = false`, so the
leading `unravel(true)` of the source is skipped. -/
inductive UOp where
  | allowScalar : UOp
  | allowSequenceStart : UOp
  | allowSequenceEnd : UOp
  | allowMappingStart : UOp
  | allowMappingEnd : UOp
  | readMappingEnd : UOp
  | readEnd : UOp
  | skipSequenceItem : UOp
  | skipMappingKey : UOp
  | skipMappingValue : UOp
deriving DecidableEq, Repr

/-- Translation of the public methods (at `expand = false`), returning
the bytes charged for tokens emitted to the caller alongside the new
state.  `allowScalar` charges the scalar before emitting it;
`allowSequenceStart` and `allowMappingStart` charge a fresh empty
sequence or mapping token; the `allow*` methods whose guard fails
return without touching anything; `readMappingEnd`, `readEnd` and the
`skip*` methods throw when their guard fails. -/
def applyUOp (fuel : Nat) (op : UOp) (frames : List Frame) (mem : TemplateMemory) :
    Except String (List Frame × TemplateMemory × Int) :=
  match op with
  | .allowScalar =>
    match frames with
    | f :: _ =>
      if f.value.isScalar then do
        let cost := TemplateMemory.calculateTokenBytes f.value false
        let mem ← mem.addToken f.value false
        let r ← moveNextU fuel false frames mem
        .ok (r.1, r.2, cost)
      else .ok (frames, mem, 0)
    | [] => .ok (frames, mem, 0)
  | .allowSequenceStart =>
    match frames with
    | f :: _ =>
      if f.value.isSeq && f.kind.isStartFlag then do
        let cost := TemplateMemory.calculateTokenBytes (.seq []) false
        let mem ← mem.addToken (.seq []) false
        let r ← moveNextU fuel false frames mem
        .ok (r.1, r.2, cost)
      else .ok (frames, mem, 0)
    | [] => .ok (frames, mem, 0)
  | .allowSequenceEnd =>
    match frames with
    | f :: _ =>
      if f.value.isSeq && f.isEndFlag then do
        let r ← moveNextU fuel false frames mem
        .ok (r.1, r.2, 0)
      else .ok (frames, mem, 0)
    | [] => .ok (frames, mem, 0)
  | .allowMappingStart =>
    match frames with
    | f :: _ =>
      if f.value.isMap && f.kind.isStartFlag then do
        let cost := TemplateMemory.calculateTokenBytes (.map []) false
        let mem ← mem.addToken (.map []) false
        let r ← moveNextU fuel false frames mem
        .ok (r.1, r.2, cost)
      else .ok (frames, mem, 0)
    | [] => .ok (frames, mem, 0)
  | .allowMappingEnd =>
    match frames with
    | f :: _ =>
      if f.value.isMap && f.isEndFlag then do
        let r ← moveNextU fuel false frames mem
        .ok (r.1, r.2, 0)
      else .ok (frames, mem, 0)
    | [] => .ok (frames, mem, 0)
  | .readMappingEnd =>
    match frames with
    | f :: _ =>
      if f.value.isMap && f.isEndFlag then do
        let r ← moveNextU fuel false frames mem
        .ok (r.1, r.2, 0)
      else .error "Unexpected state while attempting to read the mapping end."
    | [] => .error "Unexpected state while attempting to read the mapping end."
  | .readEnd =>
    match frames with
    | [] => .ok ([], mem, 0)
    | _ :: _ => .error "Expected end of template object."
  | .skipSequenceItem =>
    match frames with
    | _ :: parent :: _ =>
      if parent.value.isSeq then do
        let r ← moveNextU fuel true frames mem
        .ok (r.1, r.2, 0)
      else .error "Unexpected state while attempting to skip the current sequence item."
    | _ => .error "Unexpected state while attempting to skip the current sequence item."
  | .skipMappingKey =>
    match frames with
    | _ :: parent :: _ =>
      if parent.value.isMap && parent.kind.isKeyFlag then do
        let r ← moveNextU fuel true frames mem
        .ok (r.1, r.2, 0)
      else .error "Unexpected state while attempting to skip the current mapping key."
    | _ => .error "Unexpected state while attempting to skip the current mapping key."
  | .skipMappingValue =>
    match frames with
    | _ :: parent :: _ =>
      if parent.value.isMap && !parent.kind.isKeyFlag then do
        let r ← moveNextU fuel true frames mem
        .ok (r.1, r.2, 0)
      else .error "Unexpected state while attempting to skip the current mapping value."
    | _ => .error "Unexpected state while attempting to skip the current mapping value."

/-- Run a list of public operations, accumulating the bytes charged for
emitted tokens. -/
def runUOps (fuel : Nat) : List UOp → List Frame → TemplateMemory →
    Except String (List Frame × TemplateMemory × Int)
  | [], fs, mem => .ok (fs, mem, 0)
  | op :: ops, fs, mem => do
    let r ← applyUOp fuel op fs mem
    let r2 ← runUOps fuel ops r.1 r.2.1
    .ok (r2.1, r2.2.1, r.2.2 + r2.2.2)

/-- Bytes a frame is responsible for: the shallow token cost its
constructor charged plus the `removeBytes` its `remove()` will also
subtract. -/
def frameCharge (f : Frame) : Int :=
  TemplateMemory.calculateTokenBytes f.value false + f.removeBytes

/-- Total outstanding charge of a frame stack. -/
def framesCharge (fs : List Frame) : Int :=
  (fs.map frameCharge).sum

/-- Frames produced by the machine: a non-negative `removeBytes`, and an
insert-expression token is always wrapped by an insert-expression state
still at its start (nothing in a non-expanding traversal ever moves an
insert-expression state off its start). -/
def FrameInv (f : Frame) : Prop :=
  0 ≤ f.removeBytes ∧ (f.value.isInsertExpr = true → f.kind = .insertExpr true)

/-- All frames of a stack satisfy `FrameInv`. -/
def FramesInv (fs : List Frame) : Prop :=
  ∀ f ∈ fs, FrameInv f

/-- Accounting relation of one machine step that emits `e` bytes: frame
invariants are preserved, and the memory counters minus the outstanding
frame charges change exactly by `e` (bytes) and not at all (depth). -/
def StepInvE (fs : List Frame) (mem : TemplateMemory) (fs' : List Frame)
    (mem' : TemplateMemory) (e : Int) : Prop :=
  FramesInv fs →
    FramesInv fs' ∧
    mem'.counter.currentBytes - framesCharge fs' =
      mem.counter.currentBytes - framesCharge fs + e ∧
    mem'.currentDepth - (fs'.length : Int) = mem.currentDepth - (fs.length : Int)

/-- Accounting relation of an emission-free step. -/
def StepInv (fs : List Frame) (mem : TemplateMemory) (fs' : List Frame)
    (mem' : TemplateMemory) : Prop :=
  StepInvE fs mem fs' mem' 0

/-- Translation of `BasicExpressionState.next(value, isSequenceInsertion,
removeBytes)` on a frame whose token is a basic expression.  The source
flips `_isStart` and then creates the nested state from `this.value` —
the expression token itself — so the `value` argument is never read.
When `isSequenceInsertion` is set, the source casts the nested state to
`SequenceState` and calls `next()`; the nested state actually wraps the
expression token, so the dynamically dispatched method is
`BasicExpressionState.next` again, with all three arguments `undefined`
(`undefined` is falsy for `isSequenceInsertion`, and an `undefined`
`removeBytes` is never subtracted, like 0). -/
def basicExpressionStateNext (f : Frame) (anc : List Frame) (_value : TemplateToken)
    (isSequenceInsertion : Bool) (removeBytes : Int) (mem : TemplateMemory) :
    Except String (List Frame × TemplateMemory) :=
  match f.value with
  | .basicExpr e => do
    let fEnd := { f with kind := FrameKind.basicExpr false }
    let r ← createFrame (.basicExpr e) removeBytes mem
    if isSequenceInsertion then do
      let nestedEnd := { r.1 with kind := FrameKind.basicExpr false }
      let r2 ← createFrame (.basicExpr e) 0 r.2
      .ok (r2.1 :: nestedEnd :: fEnd :: anc, r2.2)
    else
      .ok (r.1 :: fEnd :: anc, r.2)
  | _ => .error "Unexpected state while unraveling expressions."

/-- Translation of `TemplateUnraveler.sequenceItemBasicExpression` with
the result of `expression.evaluateTemplateToken` supplied as the
`evalResult` parameter (`none` covers both an `undefined` value and a
caught evaluation error, which only records a context diagnostic): a
sequence result takes the sequence-insertion path, any other defined
result takes the plain path, and an undefined result moves to the
expression end (`expressionState.end()`). -/
def sequenceItemBasicExpression (evalResult : Option (TemplateToken × Int))
    (f : Frame) (anc : List Frame) (mem : TemplateMemory) :
    Except String (List Frame × TemplateMemory) :=
  match evalResult with
  | some (v, removeBytes) =>
    if v.isSeq then basicExpressionStateNext f anc v true removeBytes mem
    else basicExpressionStateNext f anc v false removeBytes mem
  | none =>
    .ok ({ f with kind := FrameKind.basicExpr false } :: anc, mem)

/-- C1: the falsy predicate evaluated on booleans.  The source of
`EvaluationResult.isFalsy` returns the boolean value itself
(`const b = this.value as boolean; return b`), so `false` is classified
truthy and `true` falsy, and `Not.evaluateCore` (which returns
`result.isFalsy`) evaluates `!false` to `false` and `!true` to `true` —
the opposite of the claim's "classifies boolean false as falsy" and
"!false evaluates to true and !true evaluates to false". -/
theorem c1_isFalsy_boolean_divergence :
    EvaluationResult.isFalsy (.bool false) = false ∧
    EvaluationResult.isFalsy (.bool true) = true ∧
    Not.evaluateCore (.bool false) = .bool false ∧
    Not.evaluateCore (.bool true) = .bool true :=
  ⟨rfl, rfl, rfl, rfl⟩

/-- C3: `join` evaluated at the failing input `items = ['a','b']` with no
separator argument.  The separator loop of the source starts at index 0
(`for (let i = 0; i < length; i++)`), so the first element is appended a
second time, and the raw segment list (not the joined string) is
returned as the core value; the claim's expected result is the string
`"a,b"`. -/
theorem c3_join_first_item_duplicated :
    (Join.evaluateCore (.arr 0 [.str "a", .str "b"]) none (.make none)).map Prod.fst
      = .ok (.rawArray ["a", ",", "a", ",", "b"]) := by
  rfl

/-- C5: token memory accounting evaluated at the failing input.  The
claim expects `addToken(t, deep = false)` to charge only the head node
(`MIN_OBJECT_SIZE = 24` for a sequence or mapping).  The source passes
its `traverse` flag into the `omitKeys` parameter of
`TemplateToken.traverse`, so children are charged in both modes: a
sequence holding one null child costs 48 either way, and a mapping
holding one pair `("a", null)` costs 24+52+24 = 100 with `traverse =
false` (keys included) and 48 with `traverse = true` (keys omitted) —
never the claimed 24. -/
theorem c5_addToken_shallow_still_traverses :
    TemplateMemory.calculateTokenBytes (.seq [.null]) false = 48 ∧
    TemplateMemory.calculateTokenBytes (.seq [.null]) true = 48 ∧
    TemplateMemory.calculateTokenBytes (.map [(.str "a", .null)]) false = 100 ∧
    TemplateMemory.calculateTokenBytes (.map [(.str "a", .null)]) true = 48 := by
  refine ⟨by decide, by decide, ?_, by decide⟩
  decide

lemma firstStringMatchPair_cons_str (s : String) (v : TemplateToken)
    (rest : List (TemplateToken × TemplateToken)) (key : String) :
    firstStringMatchPair ((.str s, v) :: rest) key
      = if (jsToUpper s) = (jsToUpper key) then some (s, v) else firstStringMatchPair rest key := by
  by_cases h : (jsToUpper s) = (jsToUpper key) <;>
    simp [firstStringMatchPair, List.findSome?_cons, h]

lemma firstStringMatchPair_cons_nonstr (k v : TemplateToken)
    (rest : List (TemplateToken × TemplateToken)) (key : String)
    (h : ∀ s, k ≠ .str s) :
    firstStringMatchPair ((k, v) :: rest) key = firstStringMatchPair rest key := by
  cases k
  case str s => exact absurd rfl (h s)
  all_goals simp [firstStringMatchPair, List.findSome?_cons]

lemma any_eq_find?_isSome {α : Type} (l : List α) (p : α → Bool) :
    l.any p = (l.find? p).isSome := by
  induction l with
  | nil => rfl
  | cons a l ih => by_cases h : p a <;> simp [List.find?, h, ih]

lemma dictionaryPairsGo_find? (pairs : List (TemplateToken × TemplateToken))
    (acc : List (String × TemplateToken)) (key : String) :
    (dictionaryPairsGo pairs acc).find? (fun p => (jsToUpper p.1) == (jsToUpper key))
      = ((acc.find? (fun p => (jsToUpper p.1) == (jsToUpper key))).orElse
          (fun _ => firstStringMatchPair pairs key)) := by
  induction pairs generalizing acc with
  | nil =>
    cases h : acc.find? (fun p => (jsToUpper p.1) == (jsToUpper key)) <;>
      simp [dictionaryPairsGo, firstStringMatchPair, Option.orElse, h]
  | cons hd rest ih =>
    obtain ⟨k, v⟩ := hd
    cases k with
    | str s =>
      by_cases hseen : acc.any (fun p => (jsToUpper p.1) == (jsToUpper s))
      · rw [show dictionaryPairsGo ((TemplateToken.str s, v) :: rest) acc
              = dictionaryPairsGo rest acc by simp [dictionaryPairsGo, hseen]]
        rw [ih, firstStringMatchPair_cons_str]
        by_cases hk : (jsToUpper s) = (jsToUpper key)
        · have hsome : (acc.find? (fun p => (jsToUpper p.1) == (jsToUpper key))).isSome := by
            rw [List.find?_isSome]
            simpa [hk] using hseen
          obtain ⟨p, hp⟩ := Option.isSome_iff_exists.mp hsome
          simp [hp, Option.orElse]
        · simp [hk]
      · rw [show dictionaryPairsGo ((TemplateToken.str s, v) :: rest) acc
              = dictionaryPairsGo rest (acc ++ [(s, v)]) by simp [dictionaryPairsGo, hseen]]
        rw [ih, firstStringMatchPair_cons_str, List.find?_append]
        by_cases hk : (jsToUpper s) = (jsToUpper key)
        · have hacc : acc.find? (fun p => (jsToUpper p.1) == (jsToUpper key)) = none := by
            rw [List.find?_eq_none]
            intro p hp
            simp only [List.any_eq_true, not_exists, not_and] at hseen
            have := hseen p hp
            simpa [hk] using this
          simp [hacc, Option.orElse, List.find?, hk]
        · have hBne : ((jsToUpper s) == (jsToUpper key)) = false := by simpa using hk
          have hone : List.find? (fun p => (jsToUpper p.1) == (jsToUpper key)) [(s, v)] = none := by
            simp [List.find?, hBne]
          rw [hone, if_neg hk]
          cases acc.find? (fun p => (jsToUpper p.1) == (jsToUpper key)) <;>
            simp [Option.orElse, Option.or]
    | null =>
      rw [show dictionaryPairsGo ((TemplateToken.null, v) :: rest) acc
            = dictionaryPairsGo rest acc from rfl, ih,
        firstStringMatchPair_cons_nonstr _ _ _ _ (by intro s h; exact absurd h (by simp))]
    | bool b =>
      rw [show dictionaryPairsGo ((TemplateToken.bool b, v) :: rest) acc
            = dictionaryPairsGo rest acc from rfl, ih,
        firstStringMatchPair_cons_nonstr _ _ _ _ (by intro s h; exact absurd h (by simp))]
    | num n =>
      rw [show dictionaryPairsGo ((TemplateToken.num n, v) :: rest) acc
            = dictionaryPairsGo rest acc from rfl, ih,
        firstStringMatchPair_cons_nonstr _ _ _ _ (by intro s h; exact absurd h (by simp))]
    | seq items =>
      rw [show dictionaryPairsGo ((TemplateToken.seq items, v) :: rest) acc
            = dictionaryPairsGo rest acc from rfl, ih,
        firstStringMatchPair_cons_nonstr _ _ _ _ (by intro s h; exact absurd h (by simp))]
    | map prs =>
      rw [show dictionaryPairsGo ((TemplateToken.map prs, v) :: rest) acc
            = dictionaryPairsGo rest acc from rfl, ih,
        firstStringMatchPair_cons_nonstr _ _ _ _ (by intro s h; exact absurd h (by simp))]
    | basicExpr e =>
      rw [show dictionaryPairsGo ((TemplateToken.basicExpr e, v) :: rest) acc
            = dictionaryPairsGo rest acc from rfl, ih,
        firstStringMatchPair_cons_nonstr _ _ _ _ (by intro s h; exact absurd h (by simp))]
    | insertExpr =>
      rw [show dictionaryPairsGo ((TemplateToken.insertExpr, v) :: rest) acc
            = dictionaryPairsGo rest acc from rfl, ih,
        firstStringMatchPair_cons_nonstr _ _ _ _ (by intro s h; exact absurd h (by simp))]

lemma dictionaryPairsGo_keys_mem (pairs : List (TemplateToken × TemplateToken))
    (acc : List (String × TemplateToken)) (s0 : String) :
    s0 ∈ (dictionaryPairsGo pairs acc).map Prod.fst ↔
      s0 ∈ acc.map Prod.fst ∨
        ((¬ acc.any (fun p => (jsToUpper p.1) == (jsToUpper s0))) ∧
          ∃ v, firstStringMatchPair pairs s0 = some (s0, v)) := by
  induction pairs generalizing acc with
  | nil => simp [dictionaryPairsGo, firstStringMatchPair]
  | cons hd rest ih =>
    obtain ⟨k, v⟩ := hd
    cases k with
    | str s =>
      by_cases hseen : acc.any (fun p => (jsToUpper p.1) == (jsToUpper s))
      · rw [show dictionaryPairsGo ((TemplateToken.str s, v) :: rest) acc
              = dictionaryPairsGo rest acc by simp [dictionaryPairsGo, hseen]]
        rw [ih, firstStringMatchPair_cons_str]
        by_cases hk : (jsToUpper s) = (jsToUpper s0)
        · rw [if_pos hk]
          constructor
          · rintro (h | ⟨hall, _⟩)
            · exact Or.inl h
            · exact absurd (by simpa [hk] using hseen) hall
          · rintro (h | ⟨hall, ⟨v', hv'⟩⟩)
            · exact Or.inl h
            · exact absurd (by simpa [hk] using hseen) hall
        · rw [if_neg hk]
      · rw [show dictionaryPairsGo ((TemplateToken.str s, v) :: rest) acc
              = dictionaryPairsGo rest (acc ++ [(s, v)]) by simp [dictionaryPairsGo, hseen]]
        rw [ih, firstStringMatchPair_cons_str]
        by_cases hk : (jsToUpper s) = (jsToUpper s0)
        · rw [if_pos hk]
          constructor
          · rintro (h | ⟨hall, _⟩)
            · rw [List.map_append] at h
              rcases List.mem_append.mp h with h | h
              · exact Or.inl h
              · simp only [List.map_cons, List.map_nil, List.mem_singleton] at h
                subst h
                exact Or.inr ⟨by simpa [hk] using hseen, v, rfl⟩
            · exact absurd (by simp [List.any_append, hk]) hall
          · rintro (h | ⟨hall, ⟨v', hv'⟩⟩)
            · exact Or.inl (by simp [h])
            · obtain ⟨hs, hv⟩ := Prod.mk.injEq .. ▸ Option.some.injEq .. ▸ hv'
              subst hs
              exact Or.inl (by simp)
        · rw [if_neg hk]
          have hsne : s ≠ s0 := fun h => hk (h ▸ rfl)
          constructor
          · rintro (h | ⟨hall, hex⟩)
            · rw [List.map_append] at h
              rcases List.mem_append.mp h with h | h
              · exact Or.inl h
              · simp only [List.map_cons, List.map_nil, List.mem_singleton] at h
                exact absurd h.symm hsne
            · refine Or.inr ⟨?_, hex⟩
              intro hany
              exact hall (by simp [List.any_append]; left; simpa using hany)
          · rintro (h | ⟨hall, hex⟩)
            · exact Or.inl (by simp [h])
            · refine Or.inr ⟨?_, hex⟩
              simp only [List.any_append, List.any_cons, List.any_nil, Bool.or_eq_true,
                not_or] at *
              refine ⟨hall, ?_⟩
              simpa using hk
    | null =>
      rw [show dictionaryPairsGo ((TemplateToken.null, v) :: rest) acc
            = dictionaryPairsGo rest acc from rfl, ih,
        firstStringMatchPair_cons_nonstr _ _ _ _ (fun s h => by simp at h)]
    | bool b =>
      rw [show dictionaryPairsGo ((TemplateToken.bool b, v) :: rest) acc
            = dictionaryPairsGo rest acc from rfl, ih,
        firstStringMatchPair_cons_nonstr _ _ _ _ (fun s h => by simp at h)]
    | num n =>
      rw [show dictionaryPairsGo ((TemplateToken.num n, v) :: rest) acc
            = dictionaryPairsGo rest acc from rfl, ih,
        firstStringMatchPair_cons_nonstr _ _ _ _ (fun s h => by simp at h)]
    | seq items =>
      rw [show dictionaryPairsGo ((TemplateToken.seq items, v) :: rest) acc
            = dictionaryPairsGo rest acc from rfl, ih,
        firstStringMatchPair_cons_nonstr _ _ _ _ (fun s h => by simp at h)]
    | map prs =>
      rw [show dictionaryPairsGo ((TemplateToken.map prs, v) :: rest) acc
            = dictionaryPairsGo rest acc from rfl, ih,
        firstStringMatchPair_cons_nonstr _ _ _ _ (fun s h => by simp at h)]
    | basicExpr e =>
      rw [show dictionaryPairsGo ((TemplateToken.basicExpr e, v) :: rest) acc
            = dictionaryPairsGo rest acc from rfl, ih,
        firstStringMatchPair_cons_nonstr _ _ _ _ (fun s h => by simp at h)]
    | insertExpr =>
      rw [show dictionaryPairsGo ((TemplateToken.insertExpr, v) :: rest) acc
            = dictionaryPairsGo rest acc from rfl, ih,
        firstStringMatchPair_cons_nonstr _ _ _ _ (fun s h => by simp at h)]

/-- C10: the object-capability lookup of `MappingToken`.  For every pair
list and probe key: `getObjectValue` returns the value of the first pair
(in insertion order) whose key is a string token matching the probe
under upper-cased comparison — pairs with non-string keys are invisible
and later case-insensitive duplicates are ignored; `hasObjectKey`
answers whether such a pair exists; and `getObjectKeys` contains a
string exactly when it is the original-case key of the first matching
pair for its own upper-cased class. -/
theorem c10_mapping_object_lookup (pairs : List (TemplateToken × TemplateToken))
    (key : String) :
    MappingToken.getObjectValue pairs key = (firstStringMatchPair pairs key).map Prod.snd ∧
    MappingToken.hasObjectKey pairs key = (firstStringMatchPair pairs key).isSome ∧
    (key ∈ MappingToken.getObjectKeys pairs ↔
      ∃ v, firstStringMatchPair pairs key = some (key, v)) := by
  refine ⟨?_, ?_, ?_⟩
  · rw [MappingToken.getObjectValue, MappingToken.dictionaryPairs, dictionaryPairsGo_find?]
    simp [Option.orElse]
  · rw [MappingToken.hasObjectKey, MappingToken.dictionaryPairs, any_eq_find?_isSome,
      dictionaryPairsGo_find?]
    simp [Option.orElse]
  · rw [MappingToken.getObjectKeys, MappingToken.dictionaryPairs, dictionaryPairsGo_keys_mem]
    simp

lemma runCounterOps_invariant (ops : List MCOp) (c c' : MemoryCounter)
    (hops : ∀ op ∈ ops, 0 ≤ op.amount)
    (h0 : 0 ≤ c.currentBytes) (h1 : c.currentBytes ≤ c.maxBytes)
    (hrun : runCounterOps ops c = .ok c') :
    0 ≤ c'.currentBytes ∧ c'.currentBytes ≤ c'.maxBytes ∧ c'.maxBytes = c.maxBytes := by
  induction ops generalizing c with
  | nil =>
    simp only [runCounterOps, Except.ok.injEq] at hrun
    subst hrun
    exact ⟨h0, h1, rfl⟩
  | cons op rest ih =>
    have hop : 0 ≤ op.amount := hops op (List.mem_cons_self op rest)
    have hrest : ∀ o ∈ rest, 0 ≤ o.amount := fun o ho => hops o (List.mem_cons_of_mem _ ho)
    cases op with
    | add n =>
      simp only [MCOp.amount] at hop
      simp only [runCounterOps, MemoryCounter.addAmount, MemoryCounter.tryAddAmount] at hrun
      by_cases hguard : n + c.currentBytes > c.maxBytes
      · simp [hguard, Except.bind] at hrun
      · simp only [hguard, if_neg, ite_false, Except.bind] at hrun
        have := ih { c with currentBytes := n + c.currentBytes } hrest
          (by simp; omega) (by simp; omega) hrun
        simpa using this
    | tryAdd n =>
      simp only [MCOp.amount] at hop
      simp only [runCounterOps, MemoryCounter.tryAddAmount] at hrun
      by_cases hguard : n + c.currentBytes > c.maxBytes
      · simp only [hguard, ite_true] at hrun
        exact ih c hrest h0 h1 hrun
      · simp only [hguard, ite_false] at hrun
        have := ih { c with currentBytes := n + c.currentBytes } hrest
          (by simp; omega) (by simp; omega) hrun
        simpa using this
    | sub n =>
      simp only [MCOp.amount] at hop
      simp only [runCounterOps, MemoryCounter.subtractAmount] at hrun
      by_cases hguard : n > c.currentBytes
      · simp [hguard, Except.bind] at hrun
      · simp only [hguard, ite_false, Except.bind] at hrun
        have := ih { c with currentBytes := c.currentBytes - n } hrest
          (by simp; omega) (by simp; omega) hrun
        simpa using this

/-- C6: for every sequence of add / tryAdd / subtract operations with
non-negative amounts on a `MemoryCounter` constructed with a positive
max, `currentBytes` stays within `0 ≤ currentBytes ≤ maxBytes` after
every non-throwing run (an add that would exceed the max throws — the
run aborts — and `tryAddAmount` returns false leaving the counter
unchanged, as the second conjunct states for every counter). -/
theorem c6_memory_counter_bounded (max : Int) (ops : List MCOp) (c' : MemoryCounter)
    (hmax : 0 < max)
    (hops : ∀ op ∈ ops, 0 ≤ op.amount)
    (hrun : runCounterOps ops (MemoryCounter.make (some max)) = .ok c') :
    (0 ≤ c'.currentBytes ∧ c'.currentBytes ≤ max) ∧
      (∀ (c : MemoryCounter) (n : Int),
        (c.tryAddAmount n).1 = false → (c.tryAddAmount n).2 = c) := by
  have hmk : MemoryCounter.make (some max)
      = { currentBytes := 0, maxBytes := max } := by
    simp [MemoryCounter.make, hmax]
  rw [hmk] at hrun
  have h := runCounterOps_invariant ops _ c' hops (by simp) (by simpa using le_of_lt hmax) hrun
  refine ⟨⟨h.1, by have := h.2.1; have := h.2.2; simp at this ⊢; omega⟩, ?_⟩
  intro c n hfail
  unfold MemoryCounter.tryAddAmount at hfail ⊢
  by_cases hguard : n + c.currentBytes > c.maxBytes
  · simp [hguard]
  · simp [hguard] at hfail

/-- Witness for C6: the operation sequence add 30, sub 10, tryAdd 200
(rejected: 220 > 100), add 50 on a counter with max 100 finishes at 70,
inside the bounds. -/
theorem c6_memory_counter_bounded_witness :
    (0 : Int) < 100 ∧
      (runCounterOps [MCOp.add 30, MCOp.sub 10, MCOp.tryAdd 200, MCOp.add 50]
          (MemoryCounter.make (some 100))
        = .ok { currentBytes := 70, maxBytes := 100 }) ∧
      ((0 ≤ ({ currentBytes := 70, maxBytes := 100 } : MemoryCounter).currentBytes ∧
          ({ currentBytes := 70, maxBytes := 100 } : MemoryCounter).currentBytes ≤ 100) ∧
        (∀ (c : MemoryCounter) (n : Int),
          (c.tryAddAmount n).1 = false → (c.tryAddAmount n).2 = c)) :=
  ⟨by decide, rfl,
    c6_memory_counter_bounded 100 [MCOp.add 30, MCOp.sub 10, MCOp.tryAdd 200, MCOp.add 50]
      { currentBytes := 70, maxBytes := 100 } (by decide)
      (by intro op hop; fin_cases hop <;> decide) rfl⟩

/-- C4: the reader's recovery from an unexpected mapping, evaluated at
the failing input `{"a": 1}` (events mapStart, "a", 1, mapEnd).  The
error IS recorded without throwing, but the recovery loop's condition
lacks the negation (`while (allowMappingEnd())` instead of
`while (!allowMappingEnd())`), so for a non-empty mapping the loop body
never runs: the nested events and the matching mapping-end are left
unconsumed, unbalancing the stream — the claim says they are skipped and
the mapping-end consumed. -/
theorem c4_unexpected_mapping_events_not_skipped :
    readValueMappingNotExpected 10
        [.mapStart, .lit (.str "a"), .lit (.num (.fin 1 1)), .mapEnd]
        (TemplateMemory.make 50 1048576) []
      = .ok ([.lit (.str "a"), .lit (.num (.fin 1 1)), .mapEnd],
          { counter := { currentBytes := 24, maxBytes := 1048576 },
            maxDepth := 50, currentDepth := 0 },
          ["A mapping was not expected"]) := by
  rfl

lemma RunError.toParseErr_kind_ne_limits (e : RunError) :
    e.toParseErr.kind ≠ .exceededMaxLength ∧ e.toParseErr.kind ≠ .exceededMaxDepth := by
  cases e <;> simp [RunError.toParseErr]

lemma one_le_treeDepth (n : ExprNode) : 1 ≤ treeDepth n := by
  cases n <;> simp [treeDepth]

lemma treeDepthList_le_iff (ps : List ExprNode) (b : Nat) :
    treeDepthList ps ≤ b ↔ ∀ p ∈ ps, treeDepth p ≤ b := by
  induction ps with
  | nil => simp [treeDepthList]
  | cons p rest ih => simp [treeDepthList, ih]

lemma checkMaxDepth_ok_iff :
    ∀ (node : ExprNode) (depth : Nat),
      (checkMaxDepth node depth = .ok () ↔ depth + treeDepth node ≤ MAX_DEPTH + 1) := by
  apply checkMaxDepth.induct
    (fun node depth =>
      checkMaxDepth node depth = .ok () ↔ depth + treeDepth node ≤ MAX_DEPTH + 1)
    (fun ps depth =>
      checkMaxDepthList ps depth = .ok () ↔ ∀ p ∈ ps, depth + treeDepth p ≤ MAX_DEPTH + 1)
  · intro node depth hgt
    have hck : checkMaxDepth node depth = .error { kind := .exceededMaxDepth } := by
      rw [checkMaxDepth.eq_def]; simp [hgt]
    have h1 := one_le_treeDepth node
    rw [hck]
    simp only [MAX_DEPTH] at hgt ⊢
    constructor
    · intro habs; exact absurd habs (by simp)
    · intro hb; omega
  · intro depth hle k n params ih
    have hck : checkMaxDepth (.container k n params) depth
        = checkMaxDepthList params (depth + 1) := by
      rw [checkMaxDepth.eq_def]; simp [hle]
    rw [hck, ih]
    rw [show treeDepth (.container k n params) = 1 + treeDepthList params by simp [treeDepth]]
    simp only [MAX_DEPTH] at hle ⊢
    constructor
    · intro h
      have hb : treeDepthList params ≤ 50 - depth := by
        rw [treeDepthList_le_iff]
        intro p hp
        have := h p hp
        omega
      omega
    · intro h p hp
      have hb : treeDepthList params ≤ 50 - depth := by omega
      rw [treeDepthList_le_iff] at hb
      have := hb p hp
      omega
  · intro depth hle node hnc
    cases node with
    | container k n ps => exact absurd rfl (hnc k n ps)
    | literal v =>
      rw [show checkMaxDepth (.literal v) depth = .ok () by
        rw [checkMaxDepth.eq_def]; simp [hle]]
      simp only [treeDepth, MAX_DEPTH] at hle ⊢
      constructor
      · intro _; omega
      · intro _; trivial
    | wildcard =>
      rw [show checkMaxDepth .wildcard depth = .ok () by
        rw [checkMaxDepth.eq_def]; simp [hle]]
      simp only [treeDepth, MAX_DEPTH] at hle ⊢
      constructor
      · intro _; omega
      · intro _; trivial
    | namedContext nm =>
      rw [show checkMaxDepth (.namedContext nm) depth = .ok () by
        rw [checkMaxDepth.eq_def]; simp [hle]]
      simp only [treeDepth, MAX_DEPTH] at hle ⊢
      constructor
      · intro _; omega
      · intro _; trivial
  · intro depth
    simp [checkMaxDepthList]
  · intro p rest depth e he ih1
    have hl : checkMaxDepthList (p :: rest) depth = .error e := by
      simp [checkMaxDepthList, he]
    rw [hl]
    constructor
    · intro habs; exact absurd habs (by simp)
    · intro hall
      have hp := hall p (by simp)
      have hok := ih1.mpr hp
      rw [hok] at he
      exact absurd he (by simp)
  · intro p rest depth a hok ih1 ih2
    cases a
    have hl : checkMaxDepthList (p :: rest) depth = checkMaxDepthList rest depth := by
      simp [checkMaxDepthList, hok]
    rw [hl, ih2]
    constructor
    · intro hall q hq
      rcases List.mem_cons.mp hq with rfl | hq
      · exact ih1.mp hok
      · exact hall q hq
    · intro hall q hq
      exact hall q (by simp [hq])

lemma checkMaxDepth_ok_or_error :
    ∀ (node : ExprNode) (depth : Nat),
      checkMaxDepth node depth = .ok () ∨
        checkMaxDepth node depth = .error { kind := .exceededMaxDepth } := by
  apply checkMaxDepth.induct
    (fun node depth =>
      checkMaxDepth node depth = .ok () ∨
        checkMaxDepth node depth = .error { kind := .exceededMaxDepth })
    (fun ps depth =>
      checkMaxDepthList ps depth = .ok () ∨
        checkMaxDepthList ps depth = .error { kind := .exceededMaxDepth })
  · intro node depth hgt
    right
    rw [checkMaxDepth.eq_def]
    simp [hgt]
  · intro depth hle k n params ih
    have hck : checkMaxDepth (.container k n params) depth
        = checkMaxDepthList params (depth + 1) := by
      rw [checkMaxDepth.eq_def]; simp [hle]
    rw [hck]
    exact ih
  · intro depth hle node hnc
    left
    cases node with
    | container k n ps => exact absurd rfl (hnc k n ps)
    | literal v => rw [checkMaxDepth.eq_def]; simp [hle]
    | wildcard => rw [checkMaxDepth.eq_def]; simp [hle]
    | namedContext nm => rw [checkMaxDepth.eq_def]; simp [hle]
  · intro depth
    left
    simp [checkMaxDepthList]
  · intro p rest depth e he ih1
    rcases ih1 with h1 | h1
    · rw [h1] at he; exact absurd he (by simp)
    · rw [h1] at he
      have : e = { kind := .exceededMaxDepth } := by
        have := Except.error.inj he
        exact this.symm
      subst this
      right
      simp [checkMaxDepthList, h1]
  · intro p rest depth a hok ih1 ih2
    cases a
    have hl : checkMaxDepthList (p :: rest) depth = checkMaxDepthList rest depth := by
      simp [checkMaxDepthList, hok]
    rw [hl]
    exact ih2

/-- C7: the two expression-parsing limits.  (a) Every expression string
longer than `MAX_LENGTH = 21000` characters fails with the `Exceeded max
expression length` parse error, raised by the `ParseContext` constructor
before the lexer runs.  (b) Whenever the lex/shunting-yard phase
produces a tree, the final `checkMaxDepth` pass fails with `Exceeded max
expression depth` exactly when the tree's depth exceeds `MAX_DEPTH = 50`
(and otherwise the tree is returned).  (c) Within both limits, neither
limit error is ever raised: every error of the run phase and of the
depth check carries some other kind. -/
theorem c7_expression_limits (expression : String) (namedContexts : List String)
    (functions : List FunctionInfo) :
    (expression.length > MAX_LENGTH →
      createExpressionTree expression namedContexts functions
        = .error { kind := .exceededMaxLength }) ∧
    (∀ t, expression.length ≤ MAX_LENGTH →
      runShuntingYard expression namedContexts functions false = .ok (some t) →
      (MAX_DEPTH < treeDepth t →
        createExpressionTree expression namedContexts functions
          = .error { kind := .exceededMaxDepth }) ∧
      (treeDepth t ≤ MAX_DEPTH →
        createExpressionTree expression namedContexts functions = .ok (some t))) ∧
    (expression.length ≤ MAX_LENGTH →
      (∀ t, runShuntingYard expression namedContexts functions false = .ok (some t) →
        treeDepth t ≤ MAX_DEPTH) →
      ∀ e, createExpressionTree expression namedContexts functions = .error e →
        e.kind ≠ .exceededMaxLength ∧ e.kind ≠ .exceededMaxDepth) := by
  refine ⟨?_, ?_, ?_⟩
  · intro hlen
    rw [createExpressionTree, if_pos hlen]
  · intro t hlen hrun
    have hnot : ¬ expression.length > MAX_LENGTH := by omega
    constructor
    · intro hdeep
      have h : checkMaxDepth t 1 = .error { kind := .exceededMaxDepth } := by
        rcases checkMaxDepth_ok_or_error t 1 with h | h
        · rw [checkMaxDepth_ok_iff] at h
          omega
        · exact h
      rw [createExpressionTree, if_neg hnot, hrun]
      simp only [applyDepthCheck, h]
    · intro hshallow
      have hok : checkMaxDepth t 1 = .ok () := by
        rw [checkMaxDepth_ok_iff]
        omega
      rw [createExpressionTree, if_neg hnot, hrun]
      simp only [applyDepthCheck, hok]
  · intro hlen hdep e herr
    have hnot : ¬ expression.length > MAX_LENGTH := by omega
    rw [createExpressionTree, if_neg hnot] at herr
    cases hr : runShuntingYard expression namedContexts functions false with
    | error e2 =>
      rw [hr] at herr
      simp only [applyDepthCheck] at herr
      have he : e = e2.toParseErr := (Except.error.inj herr).symm
      subst he
      exact RunError.toParseErr_kind_ne_limits e2
    | ok tree? =>
      cases tree? with
      | none =>
        rw [hr] at herr
        simp [applyDepthCheck] at herr
      | some t =>
        have hd := hdep t hr
        have hok : checkMaxDepth t 1 = .ok () := by
          rw [checkMaxDepth_ok_iff]
          have := one_le_treeDepth t
          simp only [MAX_DEPTH] at hd ⊢
          omega
        rw [hr] at herr
        simp only [applyDepthCheck, hok] at herr
        exact absurd herr (by simp)

/-- Witness for C7: the 21001-character string 'xx…x' exceeds the length
limit and fails with the length error; the expression `1` is within both
limits and parses to the literal 1 with no limit error. -/
theorem c7_expression_limits_witness :
    (longExpr.length > MAX_LENGTH ∧
      createExpressionTree longExpr [] [] = .error { kind := .exceededMaxLength }) ∧
    (("1" : String).length ≤ MAX_LENGTH ∧
      runShuntingYard "1" [] [] false = .ok (some (.literal (.num (.fin 1 1)))) ∧
      treeDepth (.literal (.num (.fin 1 1))) ≤ MAX_DEPTH ∧
      createExpressionTree "1" [] [] = .ok (some (.literal (.num (.fin 1 1))))) := by
  have hlen : longExpr.length > MAX_LENGTH := by
    rw [show longExpr.length = (List.replicate (MAX_LENGTH + 1) 'x').length from rfl,
      List.length_replicate]
    omega
  have hrun : runShuntingYard "1" [] [] false = .ok (some (.literal (.num (.fin 1 1)))) := by
    rfl
  refine ⟨⟨hlen, (c7_expression_limits longExpr [] []).1 hlen⟩,
    ⟨by decide, hrun, by decide, ?_⟩⟩
  exact ((c7_expression_limits "1" [] []).2.1 _ (by decide) hrun).2 (by decide)

/-- C8 counterexample: the claim's expression does not evaluate at all —
`eq` is not in the built-in function catalog (`WELL_KNOWN_FUNCTIONS`
holds only contains / endsWith / format / join / startsWith / toJson /
fromJson), so `createExpressionTree "eq(1, '1')"` with no extension
functions throws the `Unrecognized function` parse error at position 1. -/
theorem c8_eq_function_unrecognized :
    createExpressionTree "eq(1, '1')" [] []
      = .error { kind := .unrecognizedFunction, raw := some "eq", pos := some 0 } := by
  rfl

lemma runShuntingYard_one_eq_one :
    runShuntingYard "1 == '1'" [] [] false
      = .ok (some (.container .equal "" [.literal (.num (.fin 1 1)), .literal (.str "1")])) := by
  rfl

/-- C8 amended: equality with string-to-number coercion is spelled
`1 == '1'` in this expression language; it parses to an Equal node over
the literals 1 and '1', and `Equal.evaluateCore` on those operands
yields boolean true (the string operand is coerced to the number 1
before the comparison). -/
theorem c8_equality_operator_coerces :
    createExpressionTree "1 == '1'" [] []
      = .ok (some (.container .equal "" [.literal (.num (.fin 1 1)), .literal (.str "1")])) ∧
    EvaluationResult.convertToNumber (.str "1") = .fin 1 1 ∧
    Equal.evaluateCore (.num (.fin 1 1)) (.str "1") = .bool true := by
  refine ⟨?_, rfl, rfl⟩
  rw [createExpressionTree, if_neg (by decide), runShuntingYard_one_eq_one]
  simp only [applyDepthCheck]
  rw [show checkMaxDepth (.container .equal ""
      [.literal (.num (.fin 1 1)), .literal (.str "1")]) 1 = .ok () from rfl]

lemma stepInvE_trans {a : List Frame} {ma : TemplateMemory} {b : List Frame}
    {mb : TemplateMemory} {c : List Frame} {mc : TemplateMemory} {e1 e2 : Int}
    (h1 : StepInvE a ma b mb e1) (h2 : StepInvE b mb c mc e2) :
    StepInvE a ma c mc (e1 + e2) := by
  intro hinv
  obtain ⟨hb, hb1, hb2⟩ := h1 hinv
  obtain ⟨hc, hc1, hc2⟩ := h2 hb
  exact ⟨hc, by omega, by omega⟩

lemma stepInv_trans {a : List Frame} {ma : TemplateMemory} {b : List Frame}
    {mb : TemplateMemory} {c : List Frame} {mc : TemplateMemory}
    (h1 : StepInv a ma b mb) (h2 : StepInv b mb c mc) : StepInv a ma c mc := by
  have := stepInvE_trans h1 h2
  simpa using this

lemma stepInv_refl (fs : List Frame) (mem : TemplateMemory) : StepInv fs mem fs mem := by
  intro hinv
  exact ⟨hinv, by omega, by omega⟩

lemma mem_addAmount_ok {m : TemplateMemory} {b : Int} {m' : TemplateMemory}
    (h : m.addAmount b = .ok m') :
    m'.counter.currentBytes = m.counter.currentBytes + b ∧
    m'.currentDepth = m.currentDepth := by
  unfold TemplateMemory.addAmount MemoryCounter.addAmount MemoryCounter.tryAddAmount at h
  by_cases hc : b + m.counter.currentBytes > m.counter.maxBytes
  · simp [hc, Except.map] at h
  · simp [hc, Except.map] at h
    subst h
    exact ⟨by simp [Int.add_comm], rfl⟩

lemma mem_subtractAmount_ok {m : TemplateMemory} {b : Int} {m' : TemplateMemory}
    (h : m.subtractAmount b = .ok m') :
    m'.counter.currentBytes = m.counter.currentBytes - b ∧
    m'.currentDepth = m.currentDepth := by
  unfold TemplateMemory.subtractAmount MemoryCounter.subtractAmount at h
  by_cases hc : b > m.counter.currentBytes
  · simp [hc, Except.map] at h
  · simp [hc, Except.map] at h
    subst h
    exact ⟨rfl, rfl⟩

lemma mem_addToken_ok {m : TemplateMemory} {v : TemplateToken} {m' : TemplateMemory}
    (h : m.addToken v false = .ok m') :
    m'.counter.currentBytes =
      m.counter.currentBytes + TemplateMemory.calculateTokenBytes v false ∧
    m'.currentDepth = m.currentDepth :=
  mem_addAmount_ok h

lemma mem_subtractToken_ok {m : TemplateMemory} {v : TemplateToken} {m' : TemplateMemory}
    (h : m.subtractToken v false = .ok m') :
    m'.counter.currentBytes =
      m.counter.currentBytes - TemplateMemory.calculateTokenBytes v false ∧
    m'.currentDepth = m.currentDepth :=
  mem_subtractAmount_ok h

lemma mem_incrementDepth_ok {m m' : TemplateMemory} (h : m.incrementDepth = .ok m') :
    m'.counter.currentBytes = m.counter.currentBytes ∧
    m'.currentDepth = m.currentDepth + 1 := by
  unfold TemplateMemory.incrementDepth at h
  by_cases hc : m.currentDepth + 1 > m.maxDepth
  · simp [hc] at h
  · simp [hc] at h
    subst h
    exact ⟨rfl, rfl⟩

lemma mem_decrementDepth_ok {m m' : TemplateMemory} (h : m.decrementDepth = .ok m') :
    m'.counter.currentBytes = m.counter.currentBytes ∧
    m'.currentDepth = m.currentDepth - 1 := by
  unfold TemplateMemory.decrementDepth at h
  by_cases hc : m.currentDepth = 0
  · simp [hc] at h
  · simp [hc] at h
    subst h
    exact ⟨rfl, rfl⟩

lemma createFrame_ok {v : TemplateToken} {rb : Int} {mem : TemplateMemory}
    {f : Frame} {mem' : TemplateMemory}
    (h : createFrame v rb mem = .ok (f, mem')) :
    f = { kind := stateKindOf v, value := v, removeBytes := rb } ∧
    mem'.counter.currentBytes =
      mem.counter.currentBytes + TemplateMemory.calculateTokenBytes v false ∧
    mem'.currentDepth = mem.currentDepth + 1 := by
  unfold createFrame at h
  by_cases hg : (v.isInsertExpr && decide (rb > 0)) = true
  · simp [hg] at h
  · simp only [hg, Bool.false_eq_true, if_false, bind, Except.bind] at h
    cases h1 : mem.addToken v false with
    | error e => simp [h1] at h
    | ok m1 =>
      simp only [h1] at h
      cases h2 : m1.incrementDepth with
      | error e => simp [h2] at h
      | ok m2 =>
        simp only [h2, Except.ok.injEq, Prod.mk.injEq] at h
        obtain ⟨hf, hm⟩ := h
        subst hf
        subst hm
        obtain ⟨ha1, ha2⟩ := mem_addToken_ok h1
        obtain ⟨hb1, hb2⟩ := mem_incrementDepth_ok h2
        exact ⟨rfl, by omega, by omega⟩

lemma frame_remove_ok {f : Frame} {mem mem' : TemplateMemory}
    (hrb : 0 ≤ f.removeBytes) (h : f.remove mem = .ok mem') :
    mem'.counter.currentBytes = mem.counter.currentBytes - frameCharge f ∧
    mem'.currentDepth = mem.currentDepth - 1 := by
  unfold Frame.remove at h
  simp only [bind, Except.bind] at h
  cases h1 : mem.subtractToken f.value false with
  | error e => simp [h1] at h
  | ok m1 =>
    simp only [h1] at h
    cases h2 : m1.decrementDepth with
    | error e => simp [h2] at h
    | ok m2 =>
      simp only [h2] at h
      obtain ⟨ha1, ha2⟩ := mem_subtractToken_ok h1
      obtain ⟨hb1, hb2⟩ := mem_decrementDepth_ok h2
      by_cases hp : f.removeBytes > 0
      · simp only [hp, if_true] at h
        obtain ⟨hc1, hc2⟩ := mem_subtractAmount_ok h
        unfold frameCharge
        exact ⟨by omega, by omega⟩
      · simp only [hp, if_false] at h
        cases h
        unfold frameCharge
        have : f.removeBytes = 0 := by omega
        exact ⟨by omega, by omega⟩

lemma framesCharge_cons (f : Frame) (fs : List Frame) :
    framesCharge (f :: fs) = frameCharge f + framesCharge fs := by
  simp [framesCharge]

lemma framesInv_cons {f : Frame} {fs : List Frame} :
    FramesInv (f :: fs) ↔ FrameInv f ∧ FramesInv fs := by
  constructor
  · intro h
    exact ⟨h f (by simp), fun g hg => h g (by simp [hg])⟩
  · rintro ⟨h1, h2⟩ g hg
    rcases List.mem_cons.mp hg with h | h
    · subst h; exact h1
    · exact h2 g h

lemma frameInv_of_createFrame {v : TemplateToken} {rb : Int} {mem mem' : TemplateMemory}
    {f : Frame} (hrb : 0 ≤ rb) (h : createFrame v rb mem = .ok (f, mem')) : FrameInv f := by
  obtain ⟨hf, -, -⟩ := createFrame_ok h
  subst hf
  refine ⟨hrb, ?_⟩
  cases v <;> simp [stateKindOf, TemplateToken.isInsertExpr]

lemma createFrame_push_inv {v : TemplateToken} {mem : TemplateMemory} {f : Frame}
    {mem' : TemplateMemory} (fs : List Frame)
    (h : createFrame v 0 mem = .ok (f, mem')) :
    StepInv fs mem (f :: fs) mem' := by
  intro hinv
  obtain ⟨hf, h1, h2⟩ := createFrame_ok h
  refine ⟨framesInv_cons.mpr ⟨frameInv_of_createFrame le_rfl h, hinv⟩, ?_, ?_⟩
  · rw [framesCharge_cons]
    have hch : frameCharge f = TemplateMemory.calculateTokenBytes v false := by
      subst hf; simp [frameCharge]
    rw [hch]
    have hv : f.value = v := by subst hf; rfl
    omega
  · simp only [List.length_cons]
    push_cast
    omega

lemma remove_pop_inv {f : Frame} {fs : List Frame} {mem mem' : TemplateMemory}
    (h : f.remove mem = .ok mem') : StepInv (f :: fs) mem fs mem' := by
  intro hinv
  obtain ⟨⟨hrb, -⟩, hfs⟩ := framesInv_cons.mp hinv
  obtain ⟨h1, h2⟩ := frame_remove_ok hrb h
  refine ⟨hfs, ?_, ?_⟩
  · rw [framesCharge_cons] at *
    omega
  · simp only [List.length_cons] at *
    push_cast
    omega

lemma sequenceStateNext_inv {f : Frame} {anc : List Frame} {mem : TemplateMemory}
    {fs' : List Frame} {mem' : TemplateMemory}
    (h : sequenceStateNext f anc mem = .ok (fs', mem')) :
    StepInv (f :: anc) mem fs' mem' := by
  rcases f with ⟨k, v, rb⟩
  unfold sequenceStateNext sequenceStateNextCore at h
  cases k <;> cases v <;> simp only [bind, Except.bind] at h
  case sequence.seq isStart index items =>
    by_cases hend : items.length ≤ if isStart then index else index + 1
    · rw [if_pos (by simpa using hend)] at h
      simp only [Except.ok.injEq, Prod.mk.injEq] at h
      obtain ⟨hfs, hmem⟩ := h
      subst hfs
      subst hmem
      intro hinv
      obtain ⟨⟨hrb, -⟩, hanc⟩ := framesInv_cons.mp hinv
      refine ⟨framesInv_cons.mpr ⟨⟨hrb, by simp [TemplateToken.isInsertExpr]⟩, hanc⟩, ?_, ?_⟩
      · simp [framesCharge_cons, frameCharge]
      · simp
    · rw [if_neg (by simpa using hend)] at h
      cases hc : createFrame (items.getD (if isStart then index else index + 1) .null) 0 mem with
      | error e => rw [hc] at h; exact absurd h (by simp)
      | ok r =>
        rcases r with ⟨ch, m2⟩
        rw [hc] at h
        simp only [Except.ok.injEq, Prod.mk.injEq] at h
        obtain ⟨hfs, hmem⟩ := h
        subst hfs
        subst hmem
        intro hinv
        obtain ⟨⟨hrb, -⟩, hanc⟩ := framesInv_cons.mp hinv
        obtain ⟨hch, h1, h2⟩ := createFrame_ok hc
        refine ⟨?_, ?_, ?_⟩
        · refine framesInv_cons.mpr ⟨frameInv_of_createFrame le_rfl hc, ?_⟩
          exact framesInv_cons.mpr ⟨⟨hrb, by simp [TemplateToken.isInsertExpr]⟩, hanc⟩
        · have hchv : frameCharge ch =
              TemplateMemory.calculateTokenBytes ch.value false := by
            subst hch; simp [frameCharge]
          have hval : ch.value = items.getD (if isStart then index else index + 1) .null := by
            subst hch; rfl
          simp only [framesCharge_cons, frameCharge] at *
          rw [hval] at hchv ⊢
          omega
        · simp only [List.length_cons] at *
          push_cast
          omega

  all_goals exact absurd h (by simp)

lemma mappingStateNext_inv {f : Frame} {anc : List Frame} {mem : TemplateMemory}
    {fs' : List Frame} {mem' : TemplateMemory}
    (h : mappingStateNext f anc mem = .ok (fs', mem')) :
    StepInv (f :: anc) mem fs' mem' := by
  rcases f with ⟨k, v, rb⟩
  unfold mappingStateNext mappingStateNextCore at h
  cases k <;> cases v <;> simp only [bind, Except.bind] at h
  case mapping.map isStart index isKey pairs =>
    set p := if isStart then (index, true)
      else if isKey then (index, false)
      else (index + 1, true) with hp
    by_cases hend : pairs.length ≤ p.1
    · rw [if_pos (by simpa using hend)] at h
      simp only [Except.ok.injEq, Prod.mk.injEq] at h
      obtain ⟨hfs, hmem⟩ := h
      subst hfs
      subst hmem
      intro hinv
      obtain ⟨⟨hrb, -⟩, hanc⟩ := framesInv_cons.mp hinv
      refine ⟨framesInv_cons.mpr ⟨⟨hrb, by simp [TemplateToken.isInsertExpr]⟩, hanc⟩, ?_, ?_⟩
      · simp [framesCharge_cons, frameCharge]
      · simp
    · rw [if_neg (by simpa using hend)] at h
      cases hc : createFrame
          (if p.2 then (pairs.getD p.1 (.null, .null)).1
           else (pairs.getD p.1 (.null, .null)).2) 0 mem with
      | error e => rw [hc] at h; exact absurd h (by simp)
      | ok r =>
        rcases r with ⟨ch, m2⟩
        rw [hc] at h
        simp only [Except.ok.injEq, Prod.mk.injEq] at h
        obtain ⟨hfs, hmem⟩ := h
        subst hfs
        subst hmem
        intro hinv
        obtain ⟨⟨hrb, -⟩, hanc⟩ := framesInv_cons.mp hinv
        obtain ⟨hch, h1, h2⟩ := createFrame_ok hc
        refine ⟨?_, ?_, ?_⟩
        · refine framesInv_cons.mpr ⟨frameInv_of_createFrame le_rfl hc, ?_⟩
          exact framesInv_cons.mpr ⟨⟨hrb, by simp [TemplateToken.isInsertExpr]⟩, hanc⟩
        · have hchv : frameCharge ch =
              TemplateMemory.calculateTokenBytes ch.value false := by
            subst hch; simp [frameCharge]
          have hval : ch.value = (if p.2 then (pairs.getD p.1 (.null, .null)).1
              else (pairs.getD p.1 (.null, .null)).2) := by
            subst hch; rfl
          simp only [framesCharge_cons, frameCharge] at *
          rw [hval] at hchv ⊢
          omega
        · simp only [List.length_cons] at *
          push_cast
          omega
  all_goals exact absurd h (by simp)

lemma moveNextCore_inv {skip : Bool} {fs : List Frame} {mem : TemplateMemory}
    {fs' : List Frame} {mem' : TemplateMemory}
    (h : moveNextCore skip fs mem = .ok (fs', mem')) :
    StepInv fs mem fs' mem' := by
  cases fs with
  | nil =>
    simp only [moveNextCore, Except.ok.injEq, Prod.mk.injEq] at h
    obtain ⟨h1, h2⟩ := h
    subst h1; subst h2
    exact stepInv_refl _ _
  | cons f rest =>
    simp only [moveNextCore] at h
    by_cases hg1 : (f.value.isSeq && f.kind.isStartFlag && !skip) = true
    · rw [if_pos hg1] at h
      exact sequenceStateNext_inv h
    · rw [if_neg hg1] at h
      by_cases hg2 : (f.value.isMap && f.kind.isStartFlag && !skip) = true
      · rw [if_pos hg2] at h
        exact mappingStateNext_inv h
      · rw [if_neg hg2] at h
        split at h
        case _ parent anc =>
          by_cases hp1 : parent.value.isSeq = true
          · rw [if_pos hp1] at h
            simp only [bind, Except.bind] at h
            cases hr : f.remove mem with
            | error e => rw [hr] at h; exact absurd h (by simp)
            | ok m2 =>
              rw [hr] at h
              exact stepInv_trans (remove_pop_inv hr) (sequenceStateNext_inv h)
          · rw [if_neg hp1] at h
            by_cases hp2 : parent.value.isMap = true
            · rw [if_pos hp2] at h
              simp only [bind, Except.bind] at h
              cases hr : f.remove mem with
              | error e => rw [hr] at h; exact absurd h (by simp)
              | ok m2 =>
                rw [hr] at h
                exact stepInv_trans (remove_pop_inv hr) (mappingStateNext_inv h)
            · rw [if_neg hp2] at h
              simp only [bind, Except.bind] at h
              cases hr : f.remove mem with
              | error e => rw [hr] at h; exact absurd h (by simp)
              | ok m2 =>
                rw [hr] at h
                simp only [Except.ok.injEq, Prod.mk.injEq] at h
                obtain ⟨h1, h2⟩ := h
                subst h1; subst h2
                exact remove_pop_inv hr
        case _ =>
          simp only [bind, Except.bind] at h
          cases hr : f.remove mem with
          | error e => rw [hr] at h; exact absurd h (by simp)
          | ok m2 =>
            rw [hr] at h
            simp only [Except.ok.injEq, Prod.mk.injEq] at h
            obtain ⟨h1, h2⟩ := h
            subst h1; subst h2
            exact remove_pop_inv hr

lemma endExpression_inv {f : Frame} {rest : List Frame} {mem : TemplateMemory}
    {fs' : List Frame} {mem' : TemplateMemory}
    (hb : f.value.isBasicExpr = true)
    (h : endExpression f rest mem = .ok (fs', mem')) :
    StepInv (f :: rest) mem fs' mem' := by
  cases rest with
  | nil =>
    simp only [endExpression, bind, Except.bind] at h
    cases hr : f.remove mem with
    | error e => rw [hr] at h; exact absurd h (by simp)
    | ok m2 =>
      rw [hr] at h
      simp only [Except.ok.injEq, Prod.mk.injEq] at h
      obtain ⟨h1, h2⟩ := h
      subst h1; subst h2
      exact remove_pop_inv hr
  | cons parent anc =>
    simp only [endExpression] at h
    rw [if_pos hb] at h
    by_cases hp : parent.value.isSeq = true
    · rw [if_pos hp] at h
      simp only [bind, Except.bind] at h
      cases hr : f.remove mem with
      | error e => rw [hr] at h; exact absurd h (by simp)
      | ok m2 =>
        rw [hr] at h
        exact stepInv_trans (remove_pop_inv hr) (sequenceStateNext_inv h)
    · rw [if_neg hp] at h
      simp only [bind, Except.bind] at h
      cases hr : f.remove mem with
      | error e => rw [hr] at h; exact absurd h (by simp)
      | ok m2 =>
        rw [hr] at h
        exact stepInv_trans (remove_pop_inv hr) (mappingStateNext_inv h)

lemma stepInv_of_eq {fs fs' : List Frame} {mem mem' : TemplateMemory}
    (h : (Except.ok (fs, mem) : Except String (List Frame × TemplateMemory))
      = .ok (fs', mem')) : StepInv fs mem fs' mem' := by
  simp only [Except.ok.injEq, Prod.mk.injEq] at h
  obtain ⟨ha, hb⟩ := h
  subst ha; subst hb
  exact stepInv_refl _ _

lemma unravelFalse_inv (fuel : Nat) :
    ∀ {fs : List Frame} {mem : TemplateMemory} {fs' : List Frame} {mem' : TemplateMemory},
      unravelFalse fuel fs mem = .ok (fs', mem') → StepInv fs mem fs' mem' := by
  induction fuel with
  | zero =>
    intro fs mem fs' mem' h
    exact absurd h (by simp [unravelFalse])
  | succ fuel ih =>
    intro fs mem fs' mem' h
    cases fs with
    | nil =>
      simp only [unravelFalse, Except.ok.injEq, Prod.mk.injEq] at h
      obtain ⟨h1, h2⟩ := h
      subst h1; subst h2
      exact stepInv_refl _ _
    | cons f rest =>
      simp only [unravelFalse] at h
      by_cases h1 : f.value.isLiteral = true
      · rw [if_pos h1] at h
        exact stepInv_of_eq h
      · rw [if_neg h1] at h
        by_cases h2 : f.value.isBasicExpr = true
        · rw [if_pos h2] at h
          by_cases h3 : (f.kind.isStartFlag &&
              ((rest.head?.map (fun p => p.value.isSeq || p.value.isMap)).getD false)) = true
          · rw [if_pos h3] at h
            exact stepInv_of_eq h
          · rw [if_neg h3] at h
            by_cases h4 : (f.kind.isStartFlag && rest.isEmpty) = true
            · rw [if_pos h4] at h
              exact stepInv_of_eq h
            · rw [if_neg h4] at h
              by_cases h5 : f.isEndFlag = true
              · rw [if_pos h5] at h
                simp only [bind, Except.bind] at h
                cases he : endExpression f rest mem with
                | error e => rw [he] at h; exact absurd h (by simp)
                | ok r =>
                  rw [he] at h
                  exact stepInv_trans (endExpression_inv h2 he) (ih h)
              · rw [if_neg h5] at h
                exact absurd h (by simp)
        · rw [if_neg h2] at h
          by_cases h6 : f.value.isMap = true
          · rw [if_pos h6] at h
            by_cases h7 : (f.isEndFlag &&
                ((rest.head?.map (fun p => p.value.isInsertExpr)).getD false)) = true
            · rw [if_pos h7] at h
              simp only [bind, Except.bind] at h
              cases hr : f.remove mem with
              | error e => rw [hr] at h; exact absurd h (by simp)
              | ok m2 =>
                rw [hr] at h
                exact stepInv_trans (remove_pop_inv hr) (ih h)
            · rw [if_neg h7] at h
              by_cases h8 : f.kind.isStartFlag = true
              · rw [if_pos h8] at h
                exact stepInv_of_eq h
              · rw [if_neg h8] at h
                by_cases h9 : f.isEndFlag = true
                · rw [if_pos h9] at h
                  exact stepInv_of_eq h
                · rw [if_neg h9] at h
                  exact absurd h (by simp)
          · rw [if_neg h6] at h
            by_cases h10 : f.value.isSeq = true
            · rw [if_pos h10] at h
              by_cases h11 : (f.isEndFlag && seqEndClosesInsertion rest) = true
              · rw [if_pos h11] at h
                simp only [bind, Except.bind] at h
                cases hr : f.remove mem with
                | error e => rw [hr] at h; exact absurd h (by simp)
                | ok m2 =>
                  rw [hr] at h
                  exact stepInv_trans (remove_pop_inv hr) (ih h)
              · rw [if_neg h11] at h
                by_cases h8 : f.kind.isStartFlag = true
                · rw [if_pos h8] at h
                  exact stepInv_of_eq h
                · rw [if_neg h8] at h
                  by_cases h9 : f.isEndFlag = true
                  · rw [if_pos h9] at h
                    exact stepInv_of_eq h
                  · rw [if_neg h9] at h
                    exact absurd h (by simp)
            · rw [if_neg h10] at h
              by_cases h12 : f.value.isInsertExpr = true
              · rw [if_pos h12] at h
                by_cases h13 : (f.kind.isStartFlag &&
                    ((rest.head?.map (fun p => p.value.isMap && p.kind.isKeyFlag)).getD
                      false)) = true
                · rw [if_pos h13] at h
                  exact stepInv_of_eq h
                · rw [if_neg h13] at h
                  by_cases h14 : f.isEndFlag = true
                  · intro hinv
                    exfalso
                    obtain ⟨-, himp⟩ := hinv f (by simp)
                    have hkind := himp h12
                    rcases f with ⟨k, v, rb⟩
                    simp only at hkind
                    subst hkind
                    simp [Frame.isEndFlag] at h14
                  · rw [if_neg h14] at h
                    by_cases h15 : f.kind.isStartFlag = true
                    · rw [if_pos h15] at h
                      simp only [bind, Except.bind] at h
                      cases hr : f.remove mem with
                      | error e => rw [hr] at h; exact absurd h (by simp)
                      | ok m2 =>
                        simp only [hr] at h
                        cases hc : createFrame (.str "$\x7b\x7b insert \x7d\x7d") 0 m2 with
                        | error e => simp only [hc] at h; exact absurd h (by simp)
                        | ok r =>
                          simp only [hc] at h
                          exact stepInv_trans (remove_pop_inv hr)
                            (stepInv_trans (createFrame_push_inv rest hc) (ih h))
                    · rw [if_neg h15] at h
                      exact absurd h (by simp)
              · rw [if_neg h12] at h
                exact absurd h (by simp)

lemma moveNextU_inv {fuel : Nat} {skip : Bool} {fs : List Frame} {mem : TemplateMemory}
    {fs' : List Frame} {mem' : TemplateMemory}
    (h : moveNextU fuel skip fs mem = .ok (fs', mem')) :
    StepInv fs mem fs' mem' := by
  unfold moveNextU at h
  simp only [bind, Except.bind] at h
  cases hm : moveNextCore skip fs mem with
  | error e => rw [hm] at h; exact absurd h (by simp)
  | ok r =>
    rcases r with ⟨fs1, mem1⟩
    simp only [hm] at h
    exact stepInv_trans (moveNextCore_inv hm) (unravelFalse_inv fuel h)

lemma addToken_emit_inv {mem mem' : TemplateMemory} {v : TemplateToken} (fs : List Frame)
    (h : mem.addToken v false = .ok mem') :
    StepInvE fs mem fs mem' (TemplateMemory.calculateTokenBytes v false) := by
  intro hinv
  obtain ⟨h1, h2⟩ := mem_addToken_ok h
  exact ⟨hinv, by omega, by omega⟩

lemma applyUOp_inv {fuel : Nat} {op : UOp} {fs : List Frame} {mem : TemplateMemory}
    {fs' : List Frame} {mem' : TemplateMemory} {e : Int}
    (h : applyUOp fuel op fs mem = .ok (fs', mem', e)) :
    StepInvE fs mem fs' mem' e := by
  cases op with
  | allowScalar =>
    cases fs with
    | nil =>
      simp only [applyUOp, Except.ok.injEq, Prod.mk.injEq] at h
      obtain ⟨ha, hb, hc⟩ := h
      subst ha; subst hb; subst hc
      exact stepInv_refl _ _
    | cons f rest =>
      simp only [applyUOp] at h
      by_cases hg : f.value.isScalar = true
      · rw [if_pos hg] at h
        simp only [bind, Except.bind] at h
        cases ha : mem.addToken f.value false with
        | error e2 => rw [ha] at h; exact absurd h (by simp)
        | ok m1 =>
          simp only [ha] at h
          cases hm : moveNextU fuel false (f :: rest) m1 with
          | error e2 => simp only [hm] at h; exact absurd h (by simp)
          | ok r =>
            rcases r with ⟨fs1, mem1⟩
            simp only [hm, Except.ok.injEq, Prod.mk.injEq] at h
            obtain ⟨h1, h2, h3⟩ := h
            subst h1; subst h2; subst h3
            simpa using stepInvE_trans (addToken_emit_inv _ ha) (moveNextU_inv hm)
      · rw [if_neg hg] at h
        simp only [Except.ok.injEq, Prod.mk.injEq] at h
        obtain ⟨ha, hb, hc⟩ := h
        subst ha; subst hb; subst hc
        exact stepInv_refl _ _
  | allowSequenceStart =>
    cases fs with
    | nil =>
      simp only [applyUOp, Except.ok.injEq, Prod.mk.injEq] at h
      obtain ⟨ha, hb, hc⟩ := h
      subst ha; subst hb; subst hc
      exact stepInv_refl _ _
    | cons f rest =>
      simp only [applyUOp] at h
      by_cases hg : (f.value.isSeq && f.kind.isStartFlag) = true
      · rw [if_pos hg] at h
        simp only [bind, Except.bind] at h
        cases ha : mem.addToken (.seq []) false with
        | error e2 => rw [ha] at h; exact absurd h (by simp)
        | ok m1 =>
          simp only [ha] at h
          cases hm : moveNextU fuel false (f :: rest) m1 with
          | error e2 => simp only [hm] at h; exact absurd h (by simp)
          | ok r =>
            rcases r with ⟨fs1, mem1⟩
            simp only [hm, Except.ok.injEq, Prod.mk.injEq] at h
            obtain ⟨h1, h2, h3⟩ := h
            subst h1; subst h2; subst h3
            simpa using stepInvE_trans (addToken_emit_inv _ ha) (moveNextU_inv hm)
      · rw [if_neg hg] at h
        simp only [Except.ok.injEq, Prod.mk.injEq] at h
        obtain ⟨ha, hb, hc⟩ := h
        subst ha; subst hb; subst hc
        exact stepInv_refl _ _
  | allowSequenceEnd =>
    cases fs with
    | nil =>
      simp only [applyUOp, Except.ok.injEq, Prod.mk.injEq] at h
      obtain ⟨ha, hb, hc⟩ := h
      subst ha; subst hb; subst hc
      exact stepInv_refl _ _
    | cons f rest =>
      simp only [applyUOp] at h
      by_cases hg : (f.value.isSeq && f.isEndFlag) = true
      · rw [if_pos hg] at h
        simp only [bind, Except.bind] at h
        cases hm : moveNextU fuel false (f :: rest) mem with
        | error e2 => simp only [hm] at h; exact absurd h (by simp)
        | ok r =>
          rcases r with ⟨fs1, mem1⟩
          simp only [hm, Except.ok.injEq, Prod.mk.injEq] at h
          obtain ⟨h1, h2, h3⟩ := h
          subst h1; subst h2; subst h3
          exact moveNextU_inv hm
      · rw [if_neg hg] at h
        simp only [Except.ok.injEq, Prod.mk.injEq] at h
        obtain ⟨ha, hb, hc⟩ := h
        subst ha; subst hb; subst hc
        exact stepInv_refl _ _
  | allowMappingStart =>
    cases fs with
    | nil =>
      simp only [applyUOp, Except.ok.injEq, Prod.mk.injEq] at h
      obtain ⟨ha, hb, hc⟩ := h
      subst ha; subst hb; subst hc
      exact stepInv_refl _ _
    | cons f rest =>
      simp only [applyUOp] at h
      by_cases hg : (f.value.isMap && f.kind.isStartFlag) = true
      · rw [if_pos hg] at h
        simp only [bind, Except.bind] at h
        cases ha : mem.addToken (.map []) false with
        | error e2 => rw [ha] at h; exact absurd h (by simp)
        | ok m1 =>
          simp only [ha] at h
          cases hm : moveNextU fuel false (f :: rest) m1 with
          | error e2 => simp only [hm] at h; exact absurd h (by simp)
          | ok r =>
            rcases r with ⟨fs1, mem1⟩
            simp only [hm, Except.ok.injEq, Prod.mk.injEq] at h
            obtain ⟨h1, h2, h3⟩ := h
            subst h1; subst h2; subst h3
            simpa using stepInvE_trans (addToken_emit_inv _ ha) (moveNextU_inv hm)
      · rw [if_neg hg] at h
        simp only [Except.ok.injEq, Prod.mk.injEq] at h
        obtain ⟨ha, hb, hc⟩ := h
        subst ha; subst hb; subst hc
        exact stepInv_refl _ _
  | allowMappingEnd =>
    cases fs with
    | nil =>
      simp only [applyUOp, Except.ok.injEq, Prod.mk.injEq] at h
      obtain ⟨ha, hb, hc⟩ := h
      subst ha; subst hb; subst hc
      exact stepInv_refl _ _
    | cons f rest =>
      simp only [applyUOp] at h
      by_cases hg : (f.value.isMap && f.isEndFlag) = true
      · rw [if_pos hg] at h
        simp only [bind, Except.bind] at h
        cases hm : moveNextU fuel false (f :: rest) mem with
        | error e2 => simp only [hm] at h; exact absurd h (by simp)
        | ok r =>
          rcases r with ⟨fs1, mem1⟩
          simp only [hm, Except.ok.injEq, Prod.mk.injEq] at h
          obtain ⟨h1, h2, h3⟩ := h
          subst h1; subst h2; subst h3
          exact moveNextU_inv hm
      · rw [if_neg hg] at h
        simp only [Except.ok.injEq, Prod.mk.injEq] at h
        obtain ⟨ha, hb, hc⟩ := h
        subst ha; subst hb; subst hc
        exact stepInv_refl _ _
  | readMappingEnd =>
    cases fs with
    | nil => exact absurd h (by simp [applyUOp])
    | cons f rest =>
      simp only [applyUOp] at h
      by_cases hg : (f.value.isMap && f.isEndFlag) = true
      · rw [if_pos hg] at h
        simp only [bind, Except.bind] at h
        cases hm : moveNextU fuel false (f :: rest) mem with
        | error e2 => simp only [hm] at h; exact absurd h (by simp)
        | ok r =>
          rcases r with ⟨fs1, mem1⟩
          simp only [hm, Except.ok.injEq, Prod.mk.injEq] at h
          obtain ⟨h1, h2, h3⟩ := h
          subst h1; subst h2; subst h3
          exact moveNextU_inv hm
      · rw [if_neg hg] at h
        exact absurd h (by simp)
  | readEnd =>
    cases fs with
    | nil =>
      simp only [applyUOp, Except.ok.injEq, Prod.mk.injEq] at h
      obtain ⟨ha, hb, hc⟩ := h
      subst ha; subst hb; subst hc
      exact stepInv_refl _ _
    | cons f rest => exact absurd h (by simp [applyUOp])
  | skipSequenceItem =>
    cases fs with
    | nil => exact absurd h (by simp [applyUOp])
    | cons f rest =>
      cases rest with
      | nil => exact absurd h (by simp [applyUOp])
      | cons parent anc =>
        simp only [applyUOp] at h
        by_cases hg : parent.value.isSeq = true
        · rw [if_pos hg] at h
          simp only [bind, Except.bind] at h
          cases hm : moveNextU fuel true (f :: parent :: anc) mem with
          | error e2 => simp only [hm] at h; exact absurd h (by simp)
          | ok r =>
            rcases r with ⟨fs1, mem1⟩
            simp only [hm, Except.ok.injEq, Prod.mk.injEq] at h
            obtain ⟨h1, h2, h3⟩ := h
            subst h1; subst h2; subst h3
            exact moveNextU_inv hm
        · rw [if_neg hg] at h
          exact absurd h (by simp)
  | skipMappingKey =>
    cases fs with
    | nil => exact absurd h (by simp [applyUOp])
    | cons f rest =>
      cases rest with
      | nil => exact absurd h (by simp [applyUOp])
      | cons parent anc =>
        simp only [applyUOp] at h
        by_cases hg : (parent.value.isMap && parent.kind.isKeyFlag) = true
        · rw [if_pos hg] at h
          simp only [bind, Except.bind] at h
          cases hm : moveNextU fuel true (f :: parent :: anc) mem with
          | error e2 => simp only [hm] at h; exact absurd h (by simp)
          | ok r =>
            rcases r with ⟨fs1, mem1⟩
            simp only [hm, Except.ok.injEq, Prod.mk.injEq] at h
            obtain ⟨h1, h2, h3⟩ := h
            subst h1; subst h2; subst h3
            exact moveNextU_inv hm
        · rw [if_neg hg] at h
          exact absurd h (by simp)
  | skipMappingValue =>
    cases fs with
    | nil => exact absurd h (by simp [applyUOp])
    | cons f rest =>
      cases rest with
      | nil => exact absurd h (by simp [applyUOp])
      | cons parent anc =>
        simp only [applyUOp] at h
        by_cases hg : (parent.value.isMap && !parent.kind.isKeyFlag) = true
        · rw [if_pos hg] at h
          simp only [bind, Except.bind] at h
          cases hm : moveNextU fuel true (f :: parent :: anc) mem with
          | error e2 => simp only [hm] at h; exact absurd h (by simp)
          | ok r =>
            rcases r with ⟨fs1, mem1⟩
            simp only [hm, Except.ok.injEq, Prod.mk.injEq] at h
            obtain ⟨h1, h2, h3⟩ := h
            subst h1; subst h2; subst h3
            exact moveNextU_inv hm
        · rw [if_neg hg] at h
          exact absurd h (by simp)

lemma runUOps_inv {fuel : Nat} {ops : List UOp} :
    ∀ {fs : List Frame} {mem : TemplateMemory} {fs' : List Frame} {mem' : TemplateMemory}
      {e : Int}, runUOps fuel ops fs mem = .ok (fs', mem', e) → StepInvE fs mem fs' mem' e := by
  induction ops with
  | nil =>
    intro fs mem fs' mem' e h
    simp only [runUOps, Except.ok.injEq, Prod.mk.injEq] at h
    obtain ⟨ha, hb, hc⟩ := h
    subst ha; subst hb; subst hc
    exact stepInv_refl _ _
  | cons op ops ih =>
    intro fs mem fs' mem' e h
    simp only [runUOps, bind, Except.bind] at h
    cases h1 : applyUOp fuel op fs mem with
    | error e2 => rw [h1] at h; exact absurd h (by simp)
    | ok r =>
      rcases r with ⟨fs1, m1, e1⟩
      simp only [h1] at h
      cases h2 : runUOps fuel ops fs1 m1 with
      | error e2 => simp only [h2] at h; exact absurd h (by simp)
      | ok r2 =>
        rcases r2 with ⟨fs2, m2, e2⟩
        simp only [h2, Except.ok.injEq, Prod.mk.injEq] at h
        obtain ⟨ha, hb, hc⟩ := h
        subst ha; subst hb; subst hc
        exact stepInvE_trans (applyUOp_inv h1) (ih h2)

/-- C2: expanding a sequence-item basic expression never surfaces the
evaluated value.  Whatever token `v` the expression evaluated to, the
state `BasicExpressionState.next` returns wraps the expression token
itself (`this.value` is passed to `ReaderState.createState` instead of
the `value` argument): the new current frame holds the basic-expression
token at its start, on top of a basic-expression end frame of the same
token — so the surfaced token differs from every non-expression result
`v`, contradicting the claim that the evaluation result is emitted. -/
theorem c2_expansion_surfaces_expression_token
    (e : String) (v : TemplateToken) (rb rb0 : Int) (anc : List Frame)
    (mem mem' : TemplateMemory) (f' : Frame) (fs' : List Frame)
    (h : sequenceItemBasicExpression (some (v, rb))
        ⟨.basicExpr true, .basicExpr e, rb0⟩ anc mem = .ok (f' :: fs', mem')) :
    f'.value = .basicExpr e ∧ f'.kind = .basicExpr true ∧
    (v.isExpression = false → f'.value ≠ v) ∧
    (∃ g gs, fs' = g :: gs ∧ g.value = .basicExpr e ∧ g.kind = .basicExpr false) := by
  have hmain : f'.value = .basicExpr e ∧ f'.kind = .basicExpr true ∧
      (∃ g gs, fs' = g :: gs ∧ g.value = .basicExpr e ∧ g.kind = .basicExpr false) := by
    simp only [sequenceItemBasicExpression] at h
    by_cases hseq : v.isSeq = true
    · rw [if_pos hseq] at h
      simp only [basicExpressionStateNext, bind, Except.bind] at h
      cases hc1 : createFrame (.basicExpr e) rb mem with
      | error e2 => rw [hc1] at h; exact absurd h (by simp)
      | ok r =>
        rcases r with ⟨n1, m1⟩
        simp only [hc1] at h
        cases hc2 : createFrame (.basicExpr e) 0 m1 with
        | error e2 => simp only [hc2] at h; exact absurd h (by simp)
        | ok r2 =>
          rcases r2 with ⟨n2, m2⟩
          simp only [hc2, if_true, Except.ok.injEq, Prod.mk.injEq, List.cons.injEq] at h
          obtain ⟨⟨hf, hfs⟩, hm⟩ := h
          obtain ⟨hn1, -, -⟩ := createFrame_ok hc1
          obtain ⟨hn2, -, -⟩ := createFrame_ok hc2
          subst hf
          refine ⟨by rw [hn2], by rw [hn2]; rfl, ?_⟩
          refine ⟨{ n1 with kind := FrameKind.basicExpr false }, _, hfs.symm, ?_, rfl⟩
          rw [hn1]
    · rw [if_neg hseq] at h
      simp only [basicExpressionStateNext, bind, Except.bind] at h
      cases hc1 : createFrame (.basicExpr e) rb mem with
      | error e2 => rw [hc1] at h; exact absurd h (by simp)
      | ok r =>
        rcases r with ⟨n1, m1⟩
        simp only [hc1, Bool.false_eq_true, if_false, Except.ok.injEq, Prod.mk.injEq,
          List.cons.injEq] at h
        obtain ⟨⟨hf, hfs⟩, hm⟩ := h
        obtain ⟨hn1, -, -⟩ := createFrame_ok hc1
        subst hf
        exact ⟨by rw [hn1], by rw [hn1]; rfl,
          ⟨.basicExpr false, .basicExpr e, rb0⟩, anc, hfs.symm, rfl, rfl⟩
  obtain ⟨h1, h2, h3⟩ := hmain
  refine ⟨h1, h2, ?_, h3⟩
  intro hvE heq
  rw [h1] at heq
  rw [← heq] at hvE
  simp [TemplateToken.isExpression] at hvE

/-- C2 witness: a concrete expansion step. A sequence item is the basic
expression token for the source text `x`, and its evaluation produced
the string token `hi`; the surfaced frame after
`sequenceItemBasicExpression` wraps the expression token, not the
string. -/
theorem c2_expansion_surfaces_expression_token_witness :
    sequenceItemBasicExpression (some (.str "hi", 0))
        ⟨.basicExpr true, .basicExpr "x", 0⟩ [] (TemplateMemory.make 50 1048576)
      = .ok ([⟨.basicExpr true, .basicExpr "x", 0⟩, ⟨.basicExpr false, .basicExpr "x", 0⟩],
          ⟨⟨52, 1048576⟩, 50, 1⟩) ∧
    (⟨.basicExpr true, .basicExpr "x", 0⟩ : Frame).value = .basicExpr "x" ∧
    ((.str "hi" : TemplateToken).isExpression = false →
      (⟨.basicExpr true, .basicExpr "x", 0⟩ : Frame).value ≠ .str "hi") := by
  have hh : sequenceItemBasicExpression (some (.str "hi", 0))
      ⟨.basicExpr true, .basicExpr "x", 0⟩ [] (TemplateMemory.make 50 1048576)
    = .ok (⟨.basicExpr true, .basicExpr "x", 0⟩ ::
        [⟨.basicExpr false, .basicExpr "x", 0⟩], ⟨⟨52, 1048576⟩, 50, 1⟩) := by rfl
  have h := c2_expansion_surfaces_expression_token "x" (.str "hi") 0 0 []
    (TemplateMemory.make 50 1048576) ⟨⟨52, 1048576⟩, 50, 1⟩
    ⟨.basicExpr true, .basicExpr "x", 0⟩ [⟨.basicExpr false, .basicExpr "x", 0⟩] hh
  exact ⟨hh, h.1, h.2.2.1⟩

/-- C9 (amended): for every non-expanding traversal that reads the
template to completion (the frame stack is empty, as `readEnd`
requires), the depth counter is back to its initial value, and the bytes
counter equals its initial value plus the bytes charged for the tokens
emitted to the caller by `allowScalar` / `allowSequenceStart` /
`allowMappingStart`, minus the `removeBytes` handed to the constructor;
and every reader state subtracts on removal exactly the bytes its
constructor charged, plus its `removeBytes`. -/
theorem c9_unraveler_balanced_accounting
    (fuel : Nat) (ops : List UOp) (template : TemplateToken) (removeBytes : Int)
    (mem0 mem1 memF : TemplateMemory) (fs1 : List Frame) (emitted : Int)
    (hrb : 0 ≤ removeBytes)
    (hinit : unravelerInit template removeBytes mem0 = .ok (fs1, mem1))
    (hrun : runUOps fuel ops fs1 mem1 = .ok ([], memF, emitted)) :
    (memF.currentDepth = mem0.currentDepth ∧
      memF.counter.currentBytes = mem0.counter.currentBytes + emitted - removeBytes) ∧
    (∀ (v : TemplateToken) (rb : Int) (m m1 m2 m3 : TemplateMemory) (f : Frame),
      0 ≤ rb → createFrame v rb m = .ok (f, m1) → f.remove m2 = .ok m3 →
      m1.counter.currentBytes - m.counter.currentBytes =
        TemplateMemory.calculateTokenBytes v false ∧
      m2.counter.currentBytes - m3.counter.currentBytes =
        TemplateMemory.calculateTokenBytes v false + rb) := by
  constructor
  · unfold unravelerInit at hinit
    by_cases hins : template.isInsertExpr = true
    · rw [if_pos hins] at hinit
      exact absurd hinit (by simp)
    · rw [if_neg hins] at hinit
      simp only [bind, Except.bind] at hinit
      cases hc : createFrame template removeBytes mem0 with
      | error e => rw [hc] at hinit; exact absurd hinit (by simp)
      | ok r =>
        rcases r with ⟨f0, m1⟩
        simp only [hc, Except.ok.injEq, Prod.mk.injEq] at hinit
        obtain ⟨hfs1, hm1⟩ := hinit
        subst hfs1
        subst hm1
        have hfinv : FramesInv [f0] := by
          intro g hg
          simp only [List.mem_singleton] at hg
          subst hg
          exact frameInv_of_createFrame hrb hc
        obtain ⟨-, hbytes, hdepth⟩ := runUOps_inv hrun hfinv
        obtain ⟨hf0, hb1, hd1⟩ := createFrame_ok hc
        have hcharge : framesCharge [f0] =
            TemplateMemory.calculateTokenBytes template false + removeBytes := by
          subst hf0
          simp [framesCharge, frameCharge]
        have hnil1 : framesCharge ([] : List Frame) = 0 := by simp [framesCharge]
        rw [hnil1, hcharge] at hbytes
        simp only [List.length_singleton, List.length_nil] at hdepth
        constructor
        · omega
        · omega
  · intro v rb m m1 m2 m3 f hrb2 hc hr
    obtain ⟨hf, h1, h2⟩ := createFrame_ok hc
    have hfrb : f.removeBytes = rb := by rw [hf]
    obtain ⟨h3, h4⟩ := frame_remove_ok (by omega) hr
    have hch : frameCharge f = TemplateMemory.calculateTokenBytes v false + rb := by
      subst hf
      simp [frameCharge]
    constructor
    · omega
    · omega

/-- C9 witness: a string-token template traversed by `allowScalar` then
`readEnd`.  The emitted scalar costs 52 bytes, so the final memory ends
at depth 0 and 52 bytes; instantiating the accounting theorem at this
run discharges its hypotheses. -/
theorem c9_unraveler_balanced_accounting_witness :
    unravelerInit (.str "a") 0 (TemplateMemory.make 50 1048576)
      = .ok ([⟨.literal, .str "a", 0⟩], ⟨⟨52, 1048576⟩, 50, 1⟩) ∧
    runUOps 10 [.allowScalar, .readEnd] [⟨.literal, .str "a", 0⟩] ⟨⟨52, 1048576⟩, 50, 1⟩
      = .ok ([], ⟨⟨52, 1048576⟩, 50, 0⟩, 52) ∧
    (⟨⟨52, 1048576⟩, 50, 0⟩ : TemplateMemory).currentDepth
      = (TemplateMemory.make 50 1048576).currentDepth ∧
    (⟨⟨52, 1048576⟩, 50, 0⟩ : TemplateMemory).counter.currentBytes
      = (TemplateMemory.make 50 1048576).counter.currentBytes + 52 - 0 := by
  have h1 : unravelerInit (.str "a") 0 (TemplateMemory.make 50 1048576)
      = .ok ([⟨.literal, .str "a", 0⟩], ⟨⟨52, 1048576⟩, 50, 1⟩) := by rfl
  have h2 : runUOps 10 [.allowScalar, .readEnd] [⟨.literal, .str "a", 0⟩]
      ⟨⟨52, 1048576⟩, 50, 1⟩ = .ok ([], ⟨⟨52, 1048576⟩, 50, 0⟩, 52) := by rfl
  have h := c9_unraveler_balanced_accounting 10 [.allowScalar, .readEnd] (.str "a") 0
    (TemplateMemory.make 50 1048576) ⟨⟨52, 1048576⟩, 50, 1⟩ ⟨⟨52, 1048576⟩, 50, 0⟩
    [⟨.literal, .str "a", 0⟩] 52 (by decide) h1 h2
  exact ⟨h1, h2, h.1.1, h.1.2⟩

/-- C9 counterexample to the claim as stated: the same completed
traversal leaves the bytes counter at 52, not at its initial value 0 —
the `allow*` methods charge the tokens they emit to the caller and
nothing subtracts those bytes again. -/
theorem c9_bytes_not_restored :
    unravelerInit (.str "a") 0 (TemplateMemory.make 50 1048576)
      = .ok ([⟨.literal, .str "a", 0⟩], ⟨⟨52, 1048576⟩, 50, 1⟩) ∧
    runUOps 10 [.allowScalar, .readEnd] [⟨.literal, .str "a", 0⟩] ⟨⟨52, 1048576⟩, 50, 1⟩
      = .ok ([], ⟨⟨52, 1048576⟩, 50, 0⟩, 52) ∧
    (⟨⟨52, 1048576⟩, 50, 0⟩ : TemplateMemory).counter.currentBytes ≠
      (TemplateMemory.make 50 1048576).counter.currentBytes := by
  exact ⟨rfl, rfl, by decide⟩
